import Mathlib

/-!
Verification of the folder-podcast-rss-generator repository (src/index.ts).

The TypeScript source is shallowly embedded below.  JavaScript strings are
modelled as `List Char` (called `Str`); JS `Date` instants are modelled as
`Int` milliseconds since the epoch (ISO-8601 rendering is injective on the
valid range, so comparing instants is equivalent to comparing the stored ISO
strings); the process timezone is fixed to UTC.  The filesystem pieces the
program touches are modelled as explicit state records, `fs.readdir` as a
name-sorted enumeration of a directory (a deterministic model of the
unspecified OS listing order), and every write the program performs is
recorded in an explicit write log.  External collaborators (MP3 duration
probing, file sizes) are parameters of the model, and the external RSS/XML
serializer is modelled as a line-per-field renderer that emits exactly one
volatile `<lastBuildDate>` line.
-/

namespace PodcastRss

/-- JS strings, modelled as lists of characters. -/
abbrev Str := List Char

/-- Embed a Lean string literal into the model. -/
def str (s : String) : Str := s.data

/-- Strict lexicographic comparison of JS strings (`a < b`). -/
def lexLt : Str → Str → Bool
  | [], [] => false
  | [], _ :: _ => true
  | _ :: _, [] => false
  | a :: as, b :: bs => if a < b then true else if b < a then false else lexLt as bs

/-- Non-strict lexicographic comparison, used to model sorted `fs.readdir` output. -/
def lexLe (a b : Str) : Bool := !(lexLt b a)

/-- Stable insertion into a list sorted by `le`. -/
def insertBy (le : Str → Str → Bool) (x : Str) : List Str → List Str
  | [] => [x]
  | y :: ys => if le x y then x :: y :: ys else y :: insertBy le x ys

/-- Stable insertion sort by `le`; the deterministic model of sorting a JS array. -/
def sortBy (le : Str → Str → Bool) : List Str → List Str
  | [] => []
  | x :: xs => insertBy le x (sortBy le xs)

/-- Model of `fs.readdir`: the directory entries enumerated in name order. -/
def readdir (files : List Str) : List Str := sortBy lexLe files

/-- `t` is a prefix of `s` (JS `String.startsWith`). -/
def startsWithL (s t : Str) : Bool :=
  match s, t with
  | _, [] => true
  | [], _ :: _ => false
  | c :: cs, d :: ds => c = d && startsWithL cs ds

/-- `t` is a suffix of `s` (JS `String.endsWith`). -/
def endsWithL (s t : Str) : Bool := s.drop (s.length - t.length) = t

/-- `t` occurs as a contiguous substring of `s` (JS `String.includes`). -/
def includesL (s t : Str) : Bool :=
  match s with
  | [] => t.isEmpty
  | _ :: cs => startsWithL s t || includesL cs t

/-- JS `String.trim` (the code only ever trims ASCII space-delimited config strings). -/
def trimL (s : Str) : Str :=
  ((s.dropWhile (· = ' ')).reverse.dropWhile (· = ' ')).reverse

/-- JS `String.toLocaleLowerCase`, modelled as ASCII lowercasing. -/
def lowerL (s : Str) : Str := s.map Char.toLower

/-- JS `String.split(sep)` for a single-character separator. -/
def splitOnChar (sep : Char) : Str → List Str
  | [] => [[]]
  | c :: cs =>
    if c = sep then [] :: splitOnChar sep cs
    else
      match splitOnChar sep cs with
      | l :: ls => (c :: l) :: ls
      | [] => [[c]]

/-- JS `Array.join(sep)` for string arrays. -/
def joinWith (sep : Str) : List Str → Str
  | [] => []
  | [x] => x
  | x :: y :: xs => x ++ sep ++ joinWith sep (y :: xs)

/-- Split a file content string into lines (JS `split("\n")`). -/
def splitLines (s : Str) : List Str := splitOnChar '\n' s

/-- Join lines back into file content (the inverse of `splitLines` for newline-free lines). -/
def joinLines (ls : List Str) : Str := joinWith [newlineChar] ls
  where newlineChar : Char := '\n'

/-- Decimal digits of a `Nat` (JS number-to-string for the sizes/indices the code prints). -/
def natToStr (n : Nat) : Str := (Nat.repr n).data

/-- `ignoreChangedLinesIncluding` from src/index.ts line 12. -/
def ignoreChangedLinesIncluding : List Str := [str "<lastBuildDate>"]

/-- One entry of the line diff computed by `getChangedLines` (src/index.ts 494-570). -/
structure Change where
  oldL : Str
  newL : Str
deriving DecidableEq, Repr

/-- The bounded look-ahead search inside `getChangedLines`: the least index
`k < bound` with `l[k] = target`, scanning `l` left to right exactly as the
source's `for (lookAhead = 1; ...)` loop does (shifted by one: the source
probes `lines[j + lookAhead]`, which is `l[lookAhead - 1]` of the suffix). -/
def searchIdx (target : Str) : List Str → Nat → Option Nat
  | _, 0 => none
  | [], _ => none
  | x :: xs, b + 1 => if x = target then some 0 else (searchIdx target xs b).map (· + 1)

/-- `lookAheadLimit = 100` default of `getChangedLines`. -/
def lookAheadLimit : Nat := 100

/-- The diff loop of `getChangedLines` (src/index.ts 507-567), fuelled for
structural recursion; each iteration strictly decreases the combined length
of the two suffixes, so `fuel = |old| + |new|` always suffices. -/
def diffF : Nat → List Str → List Str → List Change
  | 0, _, _ => []
  | _ + 1, [], [] => []
  | fuel + 1, [], n :: ns => ⟨[], n⟩ :: diffF fuel [] ns
  | fuel + 1, o :: os, [] => ⟨o, []⟩ :: diffF fuel os []
  | fuel + 1, o :: os, n :: ns =>
    if o = n then diffF fuel os ns
    else
      match searchIdx o ns lookAheadLimit with
      | some k =>
        -- lines were added in the new file
        ((n :: ns.take k).map fun x => (⟨[], x⟩ : Change)) ++ diffF fuel (o :: os) (ns.drop k)
      | none =>
        match searchIdx n os lookAheadLimit with
        | some k =>
          -- lines were removed in the old file
          ((o :: os.take k).map fun x => (⟨x, []⟩ : Change)) ++ diffF fuel (os.drop k) (n :: ns)
        | none => ⟨o, n⟩ :: diffF fuel os ns

/-- `getChangedLines(oldValue = "", newValue)` on pre-split line lists. -/
def getChangedLinesL (oldLines newLines : List Str) : List Change :=
  diffF (oldLines.length + newLines.length) oldLines newLines

/-- `getChangedLines` on raw file contents. -/
def getChangedLines (oldValue newValue : Str) : List Change :=
  getChangedLinesL (splitLines oldValue) (splitLines newValue)

/-- A changed line pair matched by the ignore rule of `writeFileIfChanged`
(src/index.ts 472-477): some ignore-list entry occurs in BOTH the old and the
new line of the pair. -/
def ignoredChange (c : Change) : Bool :=
  ignoreChangedLinesIncluding.any fun ig => includesL c.oldL ig && includesL c.newL ig

/-- The write decision of `writeFileIfChanged` (src/index.ts 463-492):
`true` iff the file write is performed.  `oldContent = none` models a target
path where no file exists (`fs.exists` false, `oldValue` undefined). -/
def writeFileIfChangedDecision (oldContent : Option Str) (value : Str) : Bool :=
  if oldContent = some value then false
  else
    let changed := getChangedLines (oldContent.getD []) value
    decide (changed.filter (fun c => !ignoredChange c) ≠ [])

/-- Stateful `writeFileIfChanged`: the resulting file content and whether a
write happened. -/
def writeFileIfChangedRun (oldContent : Option Str) (value : Str) : Option Str × Bool :=
  if writeFileIfChangedDecision oldContent value then (some value, true)
  else (oldContent, false)

/-! ### The episode sort comparator (src/index.ts 278-288) -/

/-- `padStart(10, "0")` applied to one digit run. -/
def padTo10 (run : Str) : Str := List.replicate (10 - run.length) '0' ++ run

/-- Emit a finished digit run (the accumulator holds it reversed). -/
def flushRun (acc : Str) : Str := if acc.isEmpty then [] else padTo10 acc.reverse

/-- `replace(/\d+/g, m => m.padStart(10, "0"))`: every maximal digit run is
left-padded with zeroes to width 10. -/
def padNums : Str → Str → Str
  | acc, [] => flushRun acc
  | acc, c :: cs =>
    if c.isDigit then padNums (c :: acc) cs
    else flushRun acc ++ c :: padNums [] cs

/-- The padded sort key of a filename. -/
def padKey (s : Str) : Str := padNums [] s

/-- The episode comparator passed to `Array.sort`: `-1` if the padded keys
compare less, otherwise `1` (the comparator never returns `0`). -/
def mp3Cmp (a b : Str) : Int := if lexLt (padKey a) (padKey b) then -1 else 1

/-- The episode sort, modelled as a stable insertion sort driven by the
comparator's strict "less" verdict. -/
def sortMP3 (files : List Str) : List Str :=
  sortBy (fun a b => lexLt (padKey a) (padKey b)) files

/-! ### JS `Date` model (UTC timezone) -/

/-- Days since 1970-01-01 of the civil date `y-m-d` (`m` in 1..12 after
normalization, `d` unconstrained: excess days roll over exactly as in the
proleptic Gregorian calendar used by JS `Date`). -/
def daysFromCivil (y m d : Int) : Int :=
  let y2 := if m ≤ 2 then y - 1 else y
  let era := (if 0 ≤ y2 then y2 else y2 - 399) / 400
  let yoe := y2 - era * 400
  let doy := (153 * (if 2 < m then m - 3 else m + 9) + 2) / 5 + d - 1
  let doe := yoe * 365 + yoe / 4 - yoe / 100 + doy
  era * 146097 + doe - 719468

def msPerDay : Int := 86400000

/-- `new Date(year, month0, day)` at local (= modelled UTC) midnight: the
two-digit-year remap to 19xx, month overflow carried into the year, day
overflow rolled over by the calendar — JS never throws here. -/
def jsMakeDateMs (year : Nat) (month0 : Int) (day : Nat) : Int :=
  let yr : Int := if year ≤ 99 then 1900 + (year : Int) else (year : Int)
  let ym := yr + month0 / 12
  let mn := month0 % 12
  daysFromCivil ym (mn + 1) (day : Int) * msPerDay

/-- A JS time value is valid iff its magnitude is at most 8.64e15 ms;
`Date.prototype.toISOString` throws exactly on invalid time values. -/
def isoRangeOk (ms : Int) : Bool := ms.natAbs ≤ 8640000000000000

/-- Civil date from days since the epoch (inverse of `daysFromCivil`). -/
def civilFromDays (z0 : Int) : Int × Int × Int :=
  let z := z0 + 719468
  let era := (if 0 ≤ z then z else z - 146096) / 146097
  let doe := z - era * 146097
  let yoe := (doe - doe / 1460 + doe / 36524 - doe / 146096) / 365
  let y := yoe + era * 400
  let doy := doe - (365 * yoe + yoe / 4 - yoe / 100)
  let mp := (5 * doy + 2) / 153
  let d := doy - (153 * mp + 2) / 5 + 1
  let m := if mp < 10 then mp + 3 else mp - 9
  (if m ≤ 2 then y + 1 else y, m, d)

/-- Left-pad a natural's decimal digits with zeroes to width `w`. -/
def padNat (w n : Nat) : Str :=
  let s := natToStr n
  List.replicate (w - s.length) '0' ++ s

/-- `Date.prototype.toISOString` on a valid time value. -/
def isoStr (ms : Int) : Str :=
  let days := ms / msPerDay
  let rem := (ms % msPerDay).toNat
  let (y, m, d) := civilFromDays days
  let yearStr :=
    if 0 ≤ y ∧ y ≤ 9999 then padNat 4 y.toNat
    else if y < 0 then '-' :: padNat 6 y.natAbs
    else '+' :: padNat 6 y.toNat
  yearStr ++ '-' :: padNat 2 m.toNat ++ '-' :: padNat 2 d.toNat ++
    'T' :: padNat 2 (rem / 3600000) ++ ':' :: padNat 2 (rem / 60000 % 60) ++
    ':' :: padNat 2 (rem / 1000 % 60) ++ '.' :: padNat 3 (rem % 1000) ++ ['Z']

/-- `getNewDateString(index, referenceDate)` (src/index.ts 411-422): the
reference instant minus `index * 10` seconds.  Every reference date the
program passes in is a valid stored instant, so the catch-and-use-now
fallback branch is unreachable in the model. -/
def getNewDateString (index : Nat) (referenceMs : Int) : Int :=
  referenceMs - (index : Int) * 10000

/-! ### The filename date regex (src/index.ts 13-14, 367-386)

`/(?<y1>\d{4})\D(?<m1>\d{1,2})\D(?<d1>\d{1,2})|(?<d2>\d{1,2})\D(?<m2>\d{1,2})\D(?<y2>\d{4})/`
with JS leftmost-match semantics: positions are tried left to right and, at
each position, the year-first alternative before the day-first one; `\d{1,2}`
is greedy with backtracking. -/

/-- Consume exactly `n` digits. -/
def takeDigits : Nat → Str → Option (Str × Str)
  | 0, cs => some ([], cs)
  | _ + 1, [] => none
  | n + 1, c :: cs =>
    if c.isDigit then (takeDigits n cs).map fun p => (c :: p.1, p.2) else none

/-- Consume one non-digit character (`\D`). -/
def oneNonDigit : Str → Option Str
  | [] => none
  | c :: cs => if c.isDigit then none else some cs

/-- Numeric value of a digit run. -/
def digitsVal (ds : Str) : Nat := ds.foldl (fun a c => a * 10 + (c.toNat - '0'.toNat)) 0

/-- `\d{1,2}` greedily at the end of an alternative: two digits if available,
else one. -/
def greedy12 (cs : Str) : Option (Str × Str) :=
  match takeDigits 2 cs with
  | some r => some r
  | none => takeDigits 1 cs

/-- `\d{1,2}\D` with backtracking: try the two-digit reading first and fall
back to one digit when the following `\D` fails.  Returns the numeric value,
the number of digits consumed, and the rest after the separator. -/
def numThenSep (cs : Str) : Option (Nat × Nat × Str) :=
  match takeDigits 2 cs with
  | some (ds, r) =>
    (match oneNonDigit r with
     | some r2 => some (digitsVal ds, 2, r2)
     | none =>
       match takeDigits 1 cs with
       | some (ds1, r1) =>
         (match oneNonDigit r1 with
          | some r2 => some (digitsVal ds1, 1, r2)
          | none => none)
       | none => none)
  | none =>
    match takeDigits 1 cs with
    | some (ds1, r1) =>
      (match oneNonDigit r1 with
       | some r2 => some (digitsVal ds1, 1, r2)
       | none => none)
    | none => none

/-- A successful match: start position, year/month/day group values, and the
length of the matched substring. -/
structure RegexMatch where
  start : Nat
  y : Nat
  m : Nat
  d : Nat
  len : Nat
deriving DecidableEq, Repr

/-- The year-first alternative `\d{4}\D\d{1,2}\D\d{1,2}` anchored at the
current position. -/
def alt1 (cs : Str) : Option (Nat × Nat × Nat × Nat) :=
  match takeDigits 4 cs with
  | none => none
  | some (ys, r1) =>
    match oneNonDigit r1 with
    | none => none
    | some r2 =>
      match numThenSep r2 with
      | none => none
      | some (m, mdig, r3) =>
        match greedy12 r3 with
        | none => none
        | some (ds, _) => some (digitsVal ys, m, digitsVal ds, 4 + 1 + mdig + 1 + ds.length)

/-- The day-first alternative `\d{1,2}\D\d{1,2}\D\d{4}` anchored at the
current position. -/
def alt2 (cs : Str) : Option (Nat × Nat × Nat × Nat) :=
  match numThenSep cs with
  | none => none
  | some (d, ddig, r1) =>
    match numThenSep r1 with
    | none => none
    | some (m, mdig, r2) =>
      match takeDigits 4 r2 with
      | none => none
      | some (ys, _) => some (digitsVal ys, m, d, ddig + 1 + mdig + 1 + 4)

/-- Both alternatives at one position, year-first alternative first. -/
def tryAlts (cs : Str) : Option (Nat × Nat × Nat × Nat) :=
  match alt1 cs with
  | some r => some r
  | none => alt2 cs

/-- Leftmost match of the date regex. -/
def findDateMatchAux : Str → Nat → Option RegexMatch
  | [], _ => none
  | c :: cs, start =>
    match tryAlts (c :: cs) with
    | some (y, m, d, len) => some ⟨start, y, m, d, len⟩
    | none => findDateMatchAux cs (start + 1)

def findDateMatch (s : Str) : Option RegexMatch := findDateMatchAux s 0

/-- JS `String.replace(text, "")` for a plain-string pattern: remove the
first occurrence of `t`. -/
def removeFirstOcc (s t : Str) : Str :=
  match s with
  | [] => []
  | c :: cs => if startsWithL s t then s.drop t.length else c :: removeFirstOcc cs t

/-- The leading-punctuation class `/^[ \-_=+;:!@#$%^&*){}\]\/\\.,?|]+/`
stripped from the residual title. -/
def titlePunct : Str :=
  [' ', '-', '_', '=', '+', ';', ':', '!', '@', '#', '$', '%', '^', '&', '*', ')',
   Char.ofNat 123, Char.ofNat 125, ']', '/', '\\', '.', ',', '?', '|']

def stripLeadingPunct (s : Str) : Str := s.dropWhile (titlePunct.contains ·)

/-- `tryParsingDateFromName` (src/index.ts 367-386).  `none` models the
`return {}` paths: no regex match, or `toISOString()` throwing on an invalid
time value (`isoRangeOk` false).  On success the parsed instant and the
residual title (match removed, leading punctuation stripped) are returned. -/
def tryParsingDateFromName (fileName : Str) : Option (Int × Str) :=
  match findDateMatch fileName with
  | none => none
  | some mt =>
    let ms := jsMakeDateMs mt.y ((mt.m : Int) - 1) mt.d
    if isoRangeOk ms then
      let matched := (fileName.drop mt.start).take mt.len
      some (ms, stripLeadingPunct (removeFirstOcc fileName matched))
    else none

/-! ### URL resolver (src/index.ts 388-409) -/

def hexDigitChar (n : Nat) : Char :=
  if n < 10 then Char.ofNat ('0'.toNat + n) else Char.ofNat ('A'.toNat + n - 10)

def percentByte (b : Nat) : Str := ['%', hexDigitChar (b / 16), hexDigitChar (b % 16)]

/-- UTF-8 bytes of a character. -/
def utf8Bytes (c : Char) : List Nat :=
  let n := c.toNat
  if n < 128 then [n]
  else if n < 2048 then [192 + n / 64, 128 + n % 64]
  else if n < 65536 then [224 + n / 4096, 128 + n / 64 % 64, 128 + n % 64]
  else [240 + n / 262144, 128 + n / 4096 % 64, 128 + n / 64 % 64, 128 + n % 64]

/-- Characters `encodeURIComponent` leaves unescaped. -/
def uriUnreserved (c : Char) : Bool :=
  c.isAlphanum || ['-', '_', '.', '!', '~', '*', Char.ofNat 39, '(', ')'].contains c

def encodeURIComponent (s : Str) : Str :=
  s.flatMap fun c => if uriUnreserved c then [c] else (utf8Bytes c).flatMap percentByte

/-- `generateUrlPath(combinedPath)` (src/index.ts 388-409) with `path.sep`
fixed to `/`: on this platform the dirname/basename split followed by the
re-join reduces to percent-encoding each `/`-separated segment and prefixing
the root share URL. -/
def generateUrlPath (rootShareUrl : Str) (combinedPath : Str) : Str :=
  rootShareUrl ++ '/' :: joinWith (str "/") ((splitOnChar '/' combinedPath).map encodeURIComponent)

/-! ### Data model

Sidecar JSON files written by the program always contain every field of the
schema, so the shallow merge `{...defaults, ...parsed}` in `readCreateJson`
is the identity on them; sidecar content is therefore modelled as a complete
record (or as `corrupt` for bytes that do not parse).  `JSON.stringify`
equality of two objects built with the same field order is structural
equality of the records. -/

/-- One `itemMetadata` entry (src/index.ts 198-207). -/
structure EpMeta where
  title : Str
  guid : Str
  date : Int
  duration : Nat
  hideDate : Bool
deriving DecidableEq, Repr

/-- The per-channel sidecar schema (src/index.ts 188-197). -/
structure ChanMeta where
  title : Str
  description : Str
  site_url : Str
  categories : List Str
  explicit : Bool
  guid : Str
  pubDate : Int
  itemMetadata : List (Str × EpMeta)
deriving DecidableEq, Repr

/-- On-disk bytes of a channel sidecar: parseable or corrupt. -/
inductive SidecarFile where
  | ok (c : ChanMeta)
  | corrupt
deriving DecidableEq, Repr

/-- The root `metadata.json` schema (src/index.ts 17-22). -/
structure RootMeta where
  coverUrl : Str
  websiteUrl : Str
  categories : List Str
  prefixPriority : List Str
deriving DecidableEq, Repr

/-- On-disk bytes of the root sidecar. -/
inductive RootSidecar where
  | ok (m : RootMeta)
  | corrupt
deriving DecidableEq, Repr

/-- On-disk bytes of an optional `details.json` (src/index.ts 231-246). -/
inductive DetailsJson where
  | ok (description : Str) (hideDate : Bool)
  | corrupt
deriving DecidableEq, Repr

/-- One channel folder: its top-level file names, optional `details.json`,
the `rss/metadata.json` sidecar, the `items` directory listing, and the
current `rss/feed.xml` bytes. -/
structure FolderState where
  files : List Str
  details : Option DetailsJson
  sidecar : Option SidecarFile
  items : List Str
  feed : Option Str
deriving DecidableEq, Repr

/-- The root directory: the root sidecar, the channel folders (the
directory entries of the main directory; plain files there are skipped by
the `stat.isDirectory()` check), and the current `feed_urls.txt` bytes. -/
structure RootState where
  rootMeta : Option RootSidecar
  folders : List (Str × FolderState)
  feedUrls : Option Str
deriving DecidableEq, Repr

/-- External collaborators: the public share URL base and the stat/probe
results for episode files (fixed functions of the file name while the
filesystem is unchanged). -/
structure Env where
  rootShareUrl : Str
  duration : Str → Nat
  size : Str → Nat

/-- One logged filesystem mutation. -/
inductive FsWrite where
  | renameCover (folder fromName toName : Str)
  | jsonChan (folder : Str) (v : ChanMeta)
  | jsonRoot (v : RootMeta)
  | textFile (path : Str) (content : Str)
deriving DecidableEq, Repr

/-- JS object property lookup `itemMetadata?.[file]`. -/
def lookupA (k : Str) : List (Str × EpMeta) → Option EpMeta
  | [] => none
  | (k2, v) :: rest => if k2 = k then some v else lookupA k rest

/-- `writeJsonIfChanged` (src/index.ts 438-461) for a channel sidecar:
compare the parsed on-disk value with the candidate (stringify equality =
structural equality here) and skip the write when equal; unreadable or
absent old content always writes. -/
def writeJsonIfChangedChan (disk : Option SidecarFile) (v : ChanMeta) :
    Option SidecarFile × Bool :=
  match disk with
  | some (.ok c) => if c = v then (disk, false) else (some (.ok v), true)
  | some .corrupt => (some (.ok v), true)
  | none => (some (.ok v), true)

/-- `writeJsonIfChanged` for the root sidecar. -/
def writeJsonIfChangedRoot (disk : Option RootSidecar) (v : RootMeta) :
    Option RootSidecar × Bool :=
  match disk with
  | some (.ok c) => if c = v then (disk, false) else (some (.ok v), true)
  | some .corrupt => (some (.ok v), true)
  | none => (some (.ok v), true)

/-- `readCreateJson` (src/index.ts 424-436) for a channel sidecar.  An
existing file that fails to parse makes `fs.readJson` throw; the function
has no try/catch, so the error propagates (`Except.error`).  Otherwise the
parsed value (merged with defaults — the identity on complete sidecars) is
written back only if changed and returned; an absent file is created with
the defaults. -/
def readCreateJsonChan (disk : Option SidecarFile) (dflt : ChanMeta) :
    Except Unit (ChanMeta × Option SidecarFile × Bool) :=
  match disk with
  | none =>
    let (d2, w) := writeJsonIfChangedChan none dflt
    .ok (dflt, d2, w)
  | some (.ok c) =>
    let (d2, w) := writeJsonIfChangedChan (some (.ok c)) c
    .ok (c, d2, w)
  | some .corrupt => .error ()

/-- `readCreateJson` for the root sidecar. -/
def readCreateJsonRoot (disk : Option RootSidecar) (dflt : RootMeta) :
    Except Unit (RootMeta × Option RootSidecar × Bool) :=
  match disk with
  | none =>
    let (d2, w) := writeJsonIfChangedRoot none dflt
    .ok (dflt, d2, w)
  | some (.ok m) =>
    let (d2, w) := writeJsonIfChangedRoot (some (.ok m)) m
    .ok (m, d2, w)
  | some .corrupt => .error ()

/-! ### Feed assembly and the modelled serializer -/

/-- Escaping applied by the external XML serializer to embedded values,
modelled just finely enough to preserve line structure: newlines and `<`
cannot survive into a rendered line's payload. -/
def escL (s : Str) : Str :=
  s.map fun c => if c = '\n' then ' ' else if c = '<' then '(' else c

/-- One rendered feed line `<tag>value</tag>`. -/
def tagLine (t v : Str) : Str :=
  '<' :: t ++ '>' :: escL v ++ '<' :: '/' :: t ++ ['>']

def boolStr (b : Bool) : Str := if b then str "true" else str "false"

/-- One feed item handed to the serializer (src/index.ts 334-351). -/
structure FeedItem where
  title : Str
  url : Str
  sizeB : Nat
  guid : Str
  description : Str
  date : Int
  durationSec : Nat
  coverUrl : Str
  explicit : Bool
  hideDate : Bool
deriving DecidableEq, Repr

/-- The channel record handed to the serializer (src/index.ts 252-271). -/
structure FeedModel where
  title : Str
  description : Str
  feedUrl : Str
  siteUrl : Str
  coverUrl : Str
  categories : List Str
  explicit : Bool
  guid : Str
  pubDate : Int
  items : List FeedItem
deriving DecidableEq, Repr

/-- The lines the modelled serializer emits for one item. -/
def itemLines (it : FeedItem) : List Str :=
  [tagLine (str "title") it.title,
   tagLine (str "url") it.url,
   tagLine (str "size") (natToStr it.sizeB),
   tagLine (str "guid") it.guid,
   tagLine (str "description") it.description,
   tagLine (str "date") (isoStr it.date),
   tagLine (str "duration") (natToStr it.durationSec),
   tagLine (str "image") it.coverUrl,
   tagLine (str "explicit") (boolStr it.explicit),
   tagLine (str "hideDate") (boolStr it.hideDate)]

/-- The channel lines before the `lastBuildDate` line. -/
def channelHead (f : FeedModel) : List Str :=
  [tagLine (str "title") f.title,
   tagLine (str "description") f.description,
   tagLine (str "feedUrl") f.feedUrl,
   tagLine (str "link") f.siteUrl,
   tagLine (str "image") f.coverUrl] ++
  f.categories.map (fun c => tagLine (str "category") c) ++
  [tagLine (str "explicit") (boolStr f.explicit),
   tagLine (str "guid") f.guid,
   tagLine (str "pubDate") (isoStr f.pubDate)]

/-- `feed.xml({indent: true})`: the serializer output, one field per line,
with exactly one volatile `<lastBuildDate>` line stamped with the current
time (the `rss` library inserts `lastBuildDate = now` on every render). -/
def renderFeedLines (f : FeedModel) (now : Int) : List Str :=
  channelHead f ++ [tagLine (str "lastBuildDate") (isoStr now)] ++ f.items.flatMap itemLines

def renderFeed (f : FeedModel) (now : Int) : Str := joinLines (renderFeedLines f now)

/-! ### generateFeedForFolder (src/index.ts 165-365) -/

/-- `path.basename(file, suffix)`. -/
def basenameStrip (file suffix : Str) : Str :=
  if endsWithL file suffix then file.take (file.length - suffix.length) else file

/-- The priority prefixes matched against the `-`-separated parts of the
folder name (src/index.ts 216-229); each match is pushed onto the channel
categories.  `prefixPriority` here is the array as the running program holds
it, i.e. already reversed by `generateFeeds`. -/
def matchedPrefs (prefixPriority : List Str) (folderName : Str) : List Str :=
  (splitOnChar '-' folderName).filterMap fun part =>
    prefixPriority.find? fun p => trimL (lowerL part) = trimL (lowerL p)

/-- The channel title: the folder name with matched priority-prefix parts
removed, re-joined with `-` and trimmed (src/index.ts 216-229). -/
def strippedTitle (prefixPriority : List Str) (folderName : Str) : Str :=
  trimL (joinWith (str "-")
    ((splitOnChar '-' folderName).filter fun part =>
      (prefixPriority.find? fun p => trimL (lowerL part) = trimL (lowerL p)).isNone))

/-- Accumulator of the episode loop (src/index.ts 292-352). -/
structure BuildAcc where
  k : Nat
  newItems : List (Str × EpMeta)
  feedItems : List FeedItem
deriving Repr

/-- One iteration of the episode loop for `(index, file)`: build the fresh
entry (title from the basename, a fresh guid, a synthetic date from the rank
from the end, hideDate true, duration 0), overwrite title/date/hideDate on a
successful filename date parse with a truthy residual title, then take guid
and duration from the prior `itemMetadata` entry when one exists (consuming
a fresh uuid / probing the file only when there is none). -/
def buildItemsStep (env : Env) (sup : Nat → Str) (folderName : Str) (cm : ChanMeta)
    (hideDateCfg : Bool) (coverUrl : Str) (total : Nat)
    (acc : BuildAcc) (idxFile : Nat × Str) : BuildAcc :=
  let index := idxFile.1
  let file := idxFile.2
  let sizeB := env.size file
  let url := generateUrlPath env.rootShareUrl (folderName ++ str "/items/" ++ file)
  let base0 : EpMeta :=
    { title := basenameStrip file (str ".mp3"),
      guid := sup acc.k,
      date := getNewDateString (total - index) cm.pubDate,
      duration := 0,
      hideDate := true }
  let k1 := acc.k + 1
  let base :=
    match tryParsingDateFromName file with
    | some (dms, t) =>
      if t ≠ [] then { base0 with title := t, date := dms, hideDate := hideDateCfg } else base0
    | none => base0
  let prior := lookupA file cm.itemMetadata
  let gk : Str × Nat :=
    match prior with
    | some e => (e.guid, k1)
    | none => (sup k1, k1 + 1)
  let dur : Nat :=
    match prior with
    | some e => e.duration
    | none => env.duration file
  let entry : EpMeta := { base with guid := gk.1, duration := dur }
  let item : FeedItem :=
    { title := entry.title, url := url, sizeB := sizeB, guid := gk.1,
      description := str "Bölüm: " ++ natToStr (index + 1), date := entry.date,
      durationSec := dur / 1000, coverUrl := coverUrl, explicit := cm.explicit,
      hideDate := entry.hideDate }
  { k := gk.2, newItems := acc.newItems ++ [(file, entry)], feedItems := acc.feedItems ++ [item] }

/-- The cover-image test of src/index.ts line 175. -/
def isImageFile (f : Str) : Bool :=
  endsWithL f (str ".jpg") || endsWithL f (str ".png")

/-- Number of cover-image candidates in a folder listing. -/
def imageCount (files : List Str) : Nat := (files.filter isImageFile).length

/-- The cover normalization step (src/index.ts 172-185): find the first
`.jpg`/`.png` file in listing order; if it is not already named
`cover.<ext>`, rename it so.  Returns the updated folder state, the logged
rename, and the cover URL for the feed (the root default when the folder
has no image). -/
def coverStep (env : Env) (metadata : RootMeta) (folderName : Str) (st : FolderState) :
    FolderState × List FsWrite × Str :=
  match (readdir st.files).find? isImageFile with
  | none => (st, [], metadata.coverUrl)
  | some f =>
    let ext := if endsWithL f (str ".jpg") then str ".jpg" else str ".png"
    let coverName := str "cover" ++ ext
    let url := generateUrlPath env.rootShareUrl (folderName ++ str "/cover" ++ ext)
    if f = coverName then (st, [], url)
    else ({ st with files := coverName :: st.files.erase f },
          [FsWrite.renameCover folderName f coverName], url)

/-- The freshly built default channel metadata (src/index.ts 188-197); the
object literal evaluates `uuid()` (the supplied fresh guid) and
`new Date().toISOString()` (the run's clock). -/
def defaultChanMeta (metadata : RootMeta) (folderName : Str) (g : Str) (now : Int) : ChanMeta :=
  { title := folderName, description := folderName, site_url := metadata.websiteUrl,
    categories := metadata.categories, explicit := false, guid := g,
    pubDate := now, itemMetadata := [] }

/-- Result of one folder's generation. -/
structure FolderRunResult where
  state : FolderState
  writes : List FsWrite
  k : Nat
  out : Except Unit Str
deriving Repr

/-- `generateFeedForFolder` (src/index.ts 165-365) over the folder state.
`sup`/`k` model the uuid stream and `now` the run's wall clock; `metadata`
is the root configuration as the program holds it (prefix priority already
reversed).  The un-awaited `writeJsonIfChanged` at line 248 is modelled as
completing before the next write to the same file. -/
def generateFeedForFolder (env : Env) (sup : Nat → Str) (metadata : RootMeta)
    (folderName : Str) (st : FolderState) (now : Int) (k0 : Nat) : FolderRunResult :=
  -- find the first cover image in listing order and normalize its name (172-185)
  let cs := coverStep env metadata folderName st
  let st1 := cs.1
  let coverWrites := cs.2.1
  let coverUrl := cs.2.2
  -- default channel metadata; the object literal evaluates uuid() and new Date() (188-212)
  let dflt := defaultChanMeta metadata folderName (sup k0) now
  let k1 := k0 + 1
  match readCreateJsonChan st1.sidecar dflt with
  | .error _ => { state := st1, writes := coverWrites, k := k1, out := .error () }
  | .ok (cm, disk1, wrote1) =>
    let writes1 := coverWrites ++ (if wrote1 then [FsWrite.jsonChan folderName cm] else [])
    -- strip priority prefixes from the title, pushing matches onto categories (214-229)
    let cats := metadata.categories ++ matchedPrefs metadata.prefixPriority folderName
    let title := strippedTitle metadata.prefixPriority folderName
    -- optional details.json: description and hideDate (231-246); a parse
    -- failure is caught locally and leaves the defaults in place
    let dh : Str × Bool :=
      match st1.details with
      | some (.ok d hd) => (d, hd)
      | some .corrupt => (title, false)
      | none => (title, false)
    let cm2 : ChanMeta := { cm with categories := cats, title := title, description := dh.1 }
    -- writeJsonIfChanged(channelMetadataFilePath, channelMetadata) (248)
    let w2 := writeJsonIfChangedChan disk1 cm2
    let writes2 := writes1 ++ (if w2.2 then [FsWrite.jsonChan folderName cm2] else [])
    -- episode loop over the sorted .mp3 listing of items/ (273-352)
    let mp3s := sortMP3 ((readdir st1.items).filter (fun f => endsWithL f (str ".mp3")))
    let b := (mp3s.enum).foldl
      (buildItemsStep env sup folderName cm2 dh.2 coverUrl mp3s.length)
      { k := k1, newItems := [], feedItems := [] }
    -- update the metadata.json file with the new item metadata (354-358)
    let cmF : ChanMeta := { cm2 with itemMetadata := b.newItems }
    let w3 := writeJsonIfChangedChan w2.1 cmF
    let writes3 := writes2 ++ (if w3.2 then [FsWrite.jsonChan folderName cmF] else [])
    -- render and save the feed (360-362)
    let feedModel : FeedModel :=
      { title := cm2.title, description := cm2.description,
        feedUrl := generateUrlPath env.rootShareUrl (folderName ++ str "/rss/feed.xml"),
        siteUrl := cm2.site_url, coverUrl := coverUrl, categories := cm2.categories,
        explicit := cm2.explicit, guid := cm2.guid, pubDate := cm2.pubDate,
        items := b.feedItems }
    let content := renderFeed feedModel now
    let wf := writeFileIfChangedRun st1.feed content
    let writes4 := writes3 ++
      (if wf.2 then [FsWrite.textFile (folderName ++ str "/rss/feed.xml") content] else [])
    { state := { st1 with sidecar := w3.1, feed := wf.1 },
      writes := writes4, k := b.k,
      out := .ok (generateUrlPath env.rootShareUrl (folderName ++ str "/rss/feed.xml")) }

/-! ### generateFeeds (src/index.ts 66-162) -/

/-- Ascending sort of the priority keys (`sort((a, b) => a - b)`; the keys
are pairwise distinct after dedup, so any comparison sort agrees). -/
def sortIntsAsc (l : List Int) : List Int := List.insertionSort (· ≤ ·) l

/-- First-occurrence deduplication of the bucket keys (a JS object holds
each priority key once). -/
def dedupAux (seen : List Int) : List Int → List Int
  | [] => []
  | x :: xs => if x ∈ seen then dedupAux seen xs else x :: dedupAux (x :: seen) xs

def dedupFirst (l : List Int) : List Int := dedupAux [] l

/-- The master `feed_urls.txt` content (src/index.ts 148-157): bucket the
collected `(priority, url)` pairs by priority, order buckets by ascending
priority then reverse (highest first, the no-match bucket `-1` last), join
each bucket's URLs and then the buckets with newlines. -/
def buildFeedUrlsContent (pairs : List (Int × Str)) : Str :=
  let prios := (sortIntsAsc (dedupFirst (pairs.map Prod.fst))).reverse
  joinWith (str "\n")
    (prios.map fun p => joinWith (str "\n") ((pairs.filter fun q => q.1 = p).map Prod.snd))

/-- The priority of a folder (src/index.ts 136-138): the first index in the
reversed prefix-priority list whose entry is contained in the trimmed first
`-`-separated segment of the folder name, `-1` when none matches. -/
def folderPriority (reversedPrefixPriority : List Str) (folderName : Str) : Int :=
  match reversedPrefixPriority.findIdx? (fun pre =>
      includesL (trimL ((splitOnChar '-' folderName).headD [])) pre) with
  | some i => (i : Int)
  | none => -1

/-- The per-folder loop of `generateFeeds` (src/index.ts 123-145): process
the folders in order, collecting their new states, writes, and
`(priority, feedURL)` pairs; a thrown error stops the loop (remaining
folders keep their states) and propagates. -/
def processFolders (env : Env) (sup : Nat → Str) (metadataR : RootMeta) (now : Int) :
    List (Str × FolderState) → Nat →
    List (Str × FolderState) × List FsWrite × Nat × Except Unit (List (Int × Str))
  | [], k => ([], [], k, .ok [])
  | (name, fst) :: rest, k =>
    let r := generateFeedForFolder env sup metadataR name fst now k
    match r.out with
    | .error _ => ((name, r.state) :: rest, r.writes, r.k, .error ())
    | .ok url =>
      let pr := processFolders env sup metadataR now rest r.k
      ((name, r.state) :: pr.1, r.writes ++ pr.2.1, pr.2.2.1,
        pr.2.2.2.map fun urls => (folderPriority metadataR.prefixPriority name, url) :: urls)

/-- Result of one full `generateFeeds` pass. -/
structure RunResult where
  state : RootState
  writes : List FsWrite
  k : Nat
deriving Repr

/-- `generateFeeds()` without the `--refresh` switch (src/index.ts 66-162):
read-or-create the root sidecar, reverse the prefix-priority array in place,
generate every folder's feed, then write the priority-bucketed master URL
list.  Any thrown error (only sidecar corruption in this model) is caught by
the top-level try/catch: the pass stops where it was. -/
def generateFeeds (env : Env) (sup : Nat → Str) (st : RootState) (now : Int) (k0 : Nat) :
    RunResult :=
  let dfltRoot : RootMeta :=
    { coverUrl := generateUrlPath env.rootShareUrl (str "cover.png"),
      websiteUrl := str "https://example.com",
      categories := [str "Religion & Spirituality", str "Education"],
      prefixPriority := [] }
  match readCreateJsonRoot st.rootMeta dfltRoot with
  | .error _ => { state := st, writes := [], k := k0 }
  | .ok (metadata, rootDisk, wroteR) =>
    let rootWrites := if wroteR then [FsWrite.jsonRoot metadata] else []
    let metadataR := { metadata with prefixPriority := metadata.prefixPriority.reverse }
    let pr := processFolders env sup metadataR now st.folders k0
    match pr.2.2.2 with
    | .error _ =>
      { state := { st with rootMeta := rootDisk, folders := pr.1 },
        writes := rootWrites ++ pr.2.1, k := pr.2.2.1 }
    | .ok urls =>
      let content := buildFeedUrlsContent urls
      let wu := writeFileIfChangedRun st.feedUrls content
      { state := { st with rootMeta := rootDisk, folders := pr.1, feedUrls := wu.1 },
        writes := rootWrites ++ pr.2.1 ++
          (if wu.2 then [FsWrite.textFile (str "feed_urls.txt") content] else []),
        k := pr.2.2.1 }

/-! ### Proof-side mirrors and concrete example states -/

/-- The volatile marker of the ignore list. -/
def lbMarker : Str := str "<lastBuildDate>"

/-- Recursive mirror of the episode `foldl`: the item-metadata entries, feed
items, and final uuid counter produced from a given list of indexed files
and starting counter.  `foldl_eq_buildBoth` relates it to the fold. -/
def buildBoth (env : Env) (sup : Nat → Str) (folderName : Str) (cm : ChanMeta)
    (hideDateCfg : Bool) (coverUrl : Str) (total : Nat) :
    List (Nat × Str) → Nat → List (Str × EpMeta) × List FeedItem × Nat
  | [], k => ([], [], k)
  | p :: rest, k =>
    let a := buildItemsStep env sup folderName cm hideDateCfg coverUrl total
      { k := k, newItems := [], feedItems := [] } p
    let r := buildBoth env sup folderName cm hideDateCfg coverUrl total rest a.k
    (a.newItems ++ r.1, a.feedItems ++ r.2.1, r.2.2)

/-- The sorted `.mp3` listing of a folder's `items` directory. -/
def folderMp3s (st : FolderState) : List Str :=
  sortMP3 ((readdir st.items).filter (fun f => endsWithL f (str ".mp3")))

/-- The description/hideDate pair taken from `details.json` (src/index.ts
231-246), falling back to the stripped title and `false`. -/
def folderDh (md : RootMeta) (name : Str) (st : FolderState) : Str × Bool :=
  match st.details with
  | some (.ok d hd) => (d, hd)
  | some .corrupt => (strippedTitle md.prefixPriority name, false)
  | none => (strippedTitle md.prefixPriority name, false)

/-- The channel sidecar content after one folder run that loaded `cm`
(either the parsed sidecar or the fresh defaults): title/categories/
description recomputed, item metadata rebuilt by the episode loop. -/
def chanAfter (env : Env) (sup : Nat → Str) (md : RootMeta) (name : Str)
    (st : FolderState) (k0 : Nat) (cm : ChanMeta) : ChanMeta :=
  let title := strippedTitle md.prefixPriority name
  let dh := folderDh md name st
  let cats2 := md.categories ++ matchedPrefs md.prefixPriority name
  let cm2 : ChanMeta := { cm with categories := cats2, title := title, description := dh.1 }
  { cm2 with itemMetadata :=
      ((folderMp3s st).enum.foldl
        (buildItemsStep env sup name cm2 dh.2 (coverStep env md name st).2.2
          (folderMp3s st).length)
        { k := k0 + 1, newItems := [], feedItems := [] }).newItems }

/-- A concrete environment for the executable counterexamples. -/
def exEnv : Env :=
  { rootShareUrl := str "https://host/share", duration := fun _ => 123456, size := fun _ => 999 }

/-- A concrete uuid stream. -/
def exSup : Nat → Str := fun n => 'u' :: natToStr n

/-- A folder with two differently-named cover images. -/
def exFolderImgs : FolderState :=
  { files := [str "a.jpg", str "b.png"], details := none, sidecar := none,
    items := [], feed := none }

def exStImg : RootState :=
  { rootMeta := none, folders := [(str "Show", exFolderImgs)], feedUrls := none }

def exRunImg1 : RunResult := generateFeeds exEnv exSup exStImg 1700000000000 0

def exRunImg2 : RunResult := generateFeeds exEnv exSup exRunImg1.state 1700000100000 0

/-- A folder whose sidecar bytes do not parse. -/
def exFolderBad : FolderState :=
  { files := [], details := none, sidecar := some .corrupt, items := [], feed := none }

/-- An untouched healthy folder. -/
def exFolderGood : FolderState :=
  { files := [], details := none, sidecar := none, items := [], feed := none }

def exStBad : RootState :=
  { rootMeta := none,
    folders := [(str "Bad", exFolderBad), (str "Good", exFolderGood)], feedUrls := none }

def exRunBad : RunResult := generateFeeds exEnv exSup exStBad 1700000000000 0

/-- Root configuration with the priority list `["B", "A"]` of the spec's
bucketing example. -/
def exRootMeta : RootMeta :=
  { coverUrl := str "https://host/share/cover.png", websiteUrl := str "https://example.com",
    categories := [str "Cat"], prefixPriority := [str "B", str "A"] }

def exStPrio : RootState :=
  { rootMeta := some (.ok exRootMeta),
    folders := [(str "A-Show1", exFolderGood), (str "B-Show2", exFolderGood),
                (str "Show3", exFolderGood)],
    feedUrls := none }

def exRunPrio : RunResult := generateFeeds exEnv exSup exStPrio 1700000000000 0

/-- Root configuration with no priority prefixes. -/
def exRootMetaPlain : RootMeta :=
  { coverUrl := str "https://host/share/cover.png", websiteUrl := str "https://example.com",
    categories := [str "Cat"], prefixPriority := [] }

/-- A prior item-metadata entry carrying a user-edited title and a stored
date distinct from anything the reconciler would recompute. -/
def exPriorEntry : EpMeta :=
  { title := str "UserEdited", guid := str "g-1", date := 42, duration := 7, hideDate := false }

def exChanPrior : ChanMeta :=
  { title := str "Show", description := str "Show", site_url := str "https://example.com",
    categories := [str "Cat"], explicit := false, guid := str "chan-guid",
    pubDate := 1700000000000, itemMetadata := [(str "ep.mp3", exPriorEntry)] }

def exFolderPrior : FolderState :=
  { files := [], details := none, sidecar := some (.ok exChanPrior),
    items := [str "ep.mp3"], feed := none }

def exRunPrior : FolderRunResult :=
  generateFeedForFolder exEnv exSup exRootMetaPlain (str "Show") exFolderPrior 1700000500000 0

/-- The item-metadata entry the example run stores for `ep.mp3`. -/
def exRunPriorEntry : Option EpMeta :=
  match exRunPrior.state.sidecar with
  | some (.ok cmF) => lookupA (str "ep.mp3") cmF.itemMetadata
  | _ => none


/-- Two strings differ at a position where both still have characters, so
that appending anything to either cannot make them equal. -/
def mismatchAt : Str → Str → Bool
  | a :: as, b :: bs => if a = b then mismatchAt as bs else true
  | _, _ => false

/-- The episode title the loop recomputes from the filename (src/index.ts
297-325). -/
def computedTitle (f : Str) : Str :=
  match tryParsingDateFromName f with
  | some (_, t) => if t ≠ [] then t else basenameStrip f (str ".mp3")
  | none => basenameStrip f (str ".mp3")

/-- The episode date the loop recomputes from the filename and rank. -/
def computedDate (pub : Int) (total index : Nat) (f : Str) : Int :=
  match tryParsingDateFromName f with
  | some (dms, t) => if t ≠ [] then dms else getNewDateString (total - index) pub
  | none => getNewDateString (total - index) pub

/-- The hideDate flag the loop recomputes. -/
def computedHide (cfg : Bool) (f : Str) : Bool :=
  match tryParsingDateFromName f with
  | some (_, t) => if t ≠ [] then cfg else true
  | none => true

/-- The item-metadata entry one episode-loop step builds for `(index, file)`
at uuid counter `k` (mirrors the entry computation of `buildItemsStep`). -/
def entryOf (env : Env) (sup : Nat → Str) (cm : ChanMeta) (hideDateCfg : Bool)
    (total : Nat) (k : Nat) (p : Nat × Str) : EpMeta :=
  let base0 : EpMeta :=
    { title := basenameStrip p.2 (str ".mp3"),
      guid := sup k,
      date := getNewDateString (total - p.1) cm.pubDate,
      duration := 0,
      hideDate := true }
  let base :=
    match tryParsingDateFromName p.2 with
    | some (dms, t) =>
      if t ≠ [] then { base0 with title := t, date := dms, hideDate := hideDateCfg } else base0
    | none => base0
  let prior := lookupA p.2 cm.itemMetadata
  let g : Str :=
    match prior with
    | some e => e.guid
    | none => sup (k + 1)
  let dur : Nat :=
    match prior with
    | some e => e.duration
    | none => env.duration p.2
  { base with guid := g, duration := dur }

/-- The uuid counter after one episode-loop step (a second uuid is consumed
only when no prior entry exists). -/
def stepKOf (cm : ChanMeta) (k : Nat) (f : Str) : Nat :=
  match lookupA f cm.itemMetadata with
  | some _ => k + 1
  | none => k + 2

/-- The feed item one episode-loop step emits, as a function of the stored
entry. -/
def itemOfEntry (env : Env) (folderName : Str) (cover : Str) (explicitFlag : Bool)
    (index : Nat) (f : Str) (e : EpMeta) : FeedItem :=
  { title := e.title,
    url := generateUrlPath env.rootShareUrl (folderName ++ str "/items/" ++ f),
    sizeB := env.size f, guid := e.guid,
    description := str "Bölüm: " ++ natToStr (index + 1), date := e.date,
    durationSec := e.duration / 1000, coverUrl := cover, explicit := explicitFlag,
    hideDate := e.hideDate }

/-- The channel metadata after the title/category/description edits of one
folder run (src/index.ts 214-246). -/
def cm2Of (md : RootMeta) (name : Str) (st : FolderState) (cm : ChanMeta) : ChanMeta :=
  { cm with
      categories := md.categories ++ matchedPrefs md.prefixPriority name,
      title := strippedTitle md.prefixPriority name,
      description := (folderDh md name st).1 }

/-- The feed model one folder run that loaded `cm` hands to the serializer
(src/index.ts 252-271 and 334-351). -/
def feedModelOf (env : Env) (sup : Nat → Str) (md : RootMeta) (name : Str)
    (st : FolderState) (k0 : Nat) (cm : ChanMeta) : FeedModel :=
  { title := (cm2Of md name st cm).title,
    description := (cm2Of md name st cm).description,
    feedUrl := generateUrlPath env.rootShareUrl (name ++ str "/rss/feed.xml"),
    siteUrl := (cm2Of md name st cm).site_url,
    coverUrl := (coverStep env md name st).2.2,
    categories := (cm2Of md name st cm).categories,
    explicit := (cm2Of md name st cm).explicit,
    guid := (cm2Of md name st cm).guid,
    pubDate := (cm2Of md name st cm).pubDate,
    items := ((folderMp3s st).enum.foldl
      (buildItemsStep env sup name (cm2Of md name st cm) (folderDh md name st).2
        (coverStep env md name st).2.2 (folderMp3s st).length)
      { k := k0 + 1, newItems := [], feedItems := [] }).feedItems }

/-- The uuid counter after one folder run that loaded `cm`. -/
def folderKOf (env : Env) (sup : Nat → Str) (md : RootMeta) (name : Str)
    (st : FolderState) (k0 : Nat) (cm : ChanMeta) : Nat :=
  ((folderMp3s st).enum.foldl
    (buildItemsStep env sup name (cm2Of md name st cm) (folderDh md name st).2
      (coverStep env md name st).2.2 (folderMp3s st).length)
    { k := k0 + 1, newItems := [], feedItems := [] }).k

/-- The folder state after one folder run that loaded `cm` from the
pre-loop disk content `disk0`. -/
def folderStateOf (env : Env) (sup : Nat → Str) (md : RootMeta) (name : Str)
    (st : FolderState) (now : Int) (k0 : Nat) (cm : ChanMeta)
    (disk0 : Option SidecarFile) : FolderState :=
  { files := (coverStep env md name st).1.files,
    details := st.details,
    sidecar := (writeJsonIfChangedChan
      (writeJsonIfChangedChan disk0 (cm2Of md name st cm)).1
      (chanAfter env sup md name st k0 cm)).1,
    items := st.items,
    feed := (writeFileIfChangedRun st.feed
      (renderFeed (feedModelOf env sup md name st k0 cm) now)).1 }

/-- The writes of one folder run that loaded `cm` from `disk0` (`wrote0` =
the read-or-create step created the sidecar file). -/
def folderWritesOf (env : Env) (sup : Nat → Str) (md : RootMeta) (name : Str)
    (st : FolderState) (now : Int) (k0 : Nat) (cm : ChanMeta)
    (disk0 : Option SidecarFile) (wrote0 : Bool) : List FsWrite :=
  (coverStep env md name st).2.1 ++
    (if wrote0 then [FsWrite.jsonChan name cm] else []) ++
    (if (writeJsonIfChangedChan disk0 (cm2Of md name st cm)).2 then
      [FsWrite.jsonChan name (cm2Of md name st cm)] else []) ++
    (if (writeJsonIfChangedChan (writeJsonIfChangedChan disk0 (cm2Of md name st cm)).1
        (chanAfter env sup md name st k0 cm)).2 then
      [FsWrite.jsonChan name (chanAfter env sup md name st k0 cm)] else []) ++
    (if (writeFileIfChangedRun st.feed
        (renderFeed (feedModelOf env sup md name st k0 cm) now)).2 then
      [FsWrite.textFile (name ++ str "/rss/feed.xml")
        (renderFeed (feedModelOf env sup md name st k0 cm) now)] else [])


/-- The root-sidecar defaults of `generateFeeds` (src/index.ts 68-84). -/
def dfltRootOf (env : Env) : RootMeta :=
  { coverUrl := generateUrlPath env.rootShareUrl (str "cover.png"),
    websiteUrl := str "https://example.com",
    categories := [str "Religion & Spirituality", str "Education"],
    prefixPriority := [] }

/-- The root metadata as the running pass holds it: the prefix-priority
array reversed in place (src/index.ts 121). -/
def mdROf (m : RootMeta) : RootMeta := { m with prefixPriority := m.prefixPriority.reverse }

/-! ## Theorems -/

/-! ### Lexicographic comparison -/

theorem lexLt_asymm : ∀ (a b : Str), lexLt a b = true → lexLt b a = false
  | [], [] => by simp [lexLt]
  | [], _ :: _ => by simp [lexLt]
  | _ :: _, [] => by simp [lexLt]
  | a :: as, b :: bs => by
    simp only [lexLt]
    rcases lt_trichotomy a b with h | h | h
    · simp [h, lt_asymm h]
    · subst h
      simp only [lt_irrefl, if_false]
      exact lexLt_asymm as bs
    · simp [h, lt_asymm h]

theorem lexLt_trans : ∀ (a b c : Str),
    lexLt a b = true → lexLt b c = true → lexLt a c = true
  | _, b, [] => by intro _ h2; cases b <;> simp [lexLt] at h2
  | [], _, _ :: _ => by intro _ _; simp [lexLt]
  | a :: as, b, c :: cs => by
    intro h1 h2
    cases b with
    | nil => simp [lexLt] at h1
    | cons d ds =>
      simp only [lexLt] at h1 h2 ⊢
      rcases lt_trichotomy a d with h | h | h
      · rcases lt_trichotomy d c with h2' | h2' | h2'
        · simp [lt_trans h h2']
        · subst h2'; simp [h]
        · simp [h2', lt_asymm h2'] at h2
      · subst h
        simp only [lt_irrefl, if_false] at h1
        rcases lt_trichotomy a c with h2' | h2' | h2'
        · simp [h2']
        · subst h2'
          simp only [lt_irrefl, if_false] at h2 ⊢
          exact lexLt_trans as ds cs h1 h2
        · simp [h2', lt_asymm h2'] at h2
      · simp [h, lt_asymm h] at h1

theorem lexLt_connex : ∀ (a b : Str), a ≠ b → lexLt a b = true ∨ lexLt b a = true
  | [], [] => by simp
  | [], _ :: _ => by simp [lexLt]
  | _ :: _, [] => by simp [lexLt]
  | a :: as, b :: bs => by
    intro hne
    rcases lt_trichotomy a b with h | h | h
    · left; simp [lexLt, h]
    · subst h
      have : as ≠ bs := fun h => hne (by rw [h])
      rcases lexLt_connex as bs this with h | h
      · left; simp [lexLt, lt_irrefl, h]
      · right; simp [lexLt, lt_irrefl, h]
    · right; simp [lexLt, h]

theorem mp3Cmp_eq_neg_one_iff (a b : Str) :
    mp3Cmp a b = -1 ↔ lexLt (padKey a) (padKey b) = true := by
  unfold mp3Cmp
  split <;> simp_all

theorem mp3Cmp_eq_one_iff (a b : Str) :
    mp3Cmp a b = 1 ↔ lexLt (padKey a) (padKey b) = false := by
  unfold mp3Cmp
  split <;> simp_all

/-- C9 amended: the comparator is total and deterministic (it only ever
returns `-1` or `1`) and transitive in the strict direction, and whenever the
two filenames' zero-padded keys differ it orders the pair consistently
(`compare(a,b) = -1` exactly when `compare(b,a) = 1`).  Only filenames whose
padded keys coincide (e.g. `ep1` vs `ep01`) are ordered inconsistently, so
the sorted order is uniquely determined whenever padded keys are pairwise
distinct. -/
theorem C9_amended_theorem (a b c : Str) :
    (mp3Cmp a b = -1 ∨ mp3Cmp a b = 1) ∧
    (mp3Cmp a b = -1 → mp3Cmp b c = -1 → mp3Cmp a c = -1) ∧
    (padKey a ≠ padKey b → (mp3Cmp a b = -1 ↔ mp3Cmp b a = 1)) := by
  refine ⟨?_, ?_, ?_⟩
  · unfold mp3Cmp; split <;> simp
  · intro h1 h2
    rw [mp3Cmp_eq_neg_one_iff] at h1 h2 ⊢
    exact lexLt_trans _ _ _ h1 h2
  · intro hne
    rw [mp3Cmp_eq_neg_one_iff, mp3Cmp_eq_one_iff]
    constructor
    · exact fun h => lexLt_asymm _ _ h
    · intro h
      rcases lexLt_connex _ _ hne with h2 | h2
      · exact h2
      · rw [h2] at h; cases h

/-- C9 amended witness at a concrete pair with distinct padded keys. -/
theorem C9_amended_witness :
    mp3Cmp (str "ep2.mp3") (str "ep10.mp3") = -1 ↔
      mp3Cmp (str "ep10.mp3") (str "ep2.mp3") = 1 :=
  (C9_amended_theorem (str "ep2.mp3") (str "ep10.mp3") (str "ep10.mp3")).2.2 (by decide)

/-- C9 counterexample: `"ep1.mp3"` and `"ep01.mp3"` are distinct filenames
whose padded keys coincide; the comparator reports each strictly greater
than the other (both calls return `1`, agreeing in sign), so it is not a
strict total order and the sorted order of such a set is not uniquely
determined. -/
theorem C9_counterexample :
    str "ep1.mp3" ≠ str "ep01.mp3" ∧
    mp3Cmp (str "ep1.mp3") (str "ep01.mp3") = 1 ∧
    mp3Cmp (str "ep01.mp3") (str "ep1.mp3") = 1 := by decide

/-! ### Bounds on the regex group values -/

theorem digit_val_le {c : Char} (h : c.isDigit = true) : c.toNat - '0'.toNat ≤ 9 := by
  simp only [Char.isDigit, ge_iff_le, Bool.and_eq_true, decide_eq_true_eq] at h
  obtain ⟨h1, h2⟩ := h
  have b1 : (48 : Nat) ≤ c.val.toNat := h1
  have b2 : c.val.toNat ≤ 57 := h2
  have hc : c.toNat = c.val.toNat := rfl
  have h0 : '0'.toNat = 48 := rfl
  omega

theorem digitsVal_aux_lt : ∀ (ds : Str) (a : Nat), (∀ c ∈ ds, c.isDigit = true) →
    ds.foldl (fun a c => a * 10 + (c.toNat - '0'.toNat)) a < (a + 1) * 10 ^ ds.length
  | [], a, _ => by simp
  | c :: cs, a, h => by
    have hc : c.toNat - '0'.toNat ≤ 9 := digit_val_le (h c (by simp))
    have ih := digitsVal_aux_lt cs (a * 10 + (c.toNat - '0'.toNat))
      (fun x hx => h x (by simp [hx]))
    simp only [List.foldl_cons, List.length_cons]
    refine lt_of_lt_of_le ih ?_
    have h1 : a * 10 + (c.toNat - '0'.toNat) + 1 ≤ (a + 1) * 10 := by omega
    calc (a * 10 + (c.toNat - '0'.toNat) + 1) * 10 ^ cs.length
        ≤ ((a + 1) * 10) * 10 ^ cs.length := Nat.mul_le_mul_right _ h1
      _ = (a + 1) * 10 ^ (cs.length + 1) := by ring

theorem digitsVal_lt (ds : Str) (h : ∀ c ∈ ds, c.isDigit = true) :
    digitsVal ds < 10 ^ ds.length := by
  have := digitsVal_aux_lt ds 0 h
  simpa [digitsVal] using this

theorem takeDigits_spec : ∀ (n : Nat) (cs ds r : Str), takeDigits n cs = some (ds, r) →
    ds.length = n ∧ ∀ c ∈ ds, c.isDigit = true
  | 0, cs, ds, r => by
    intro h
    simp only [takeDigits, Option.some_inj, Prod.mk.injEq] at h
    obtain ⟨h1, _⟩ := h
    subst h1; simp
  | n + 1, [], ds, r => by simp [takeDigits]
  | n + 1, c :: cs, ds, r => by
    simp only [takeDigits]
    split
    · rename_i hd
      cases htd : takeDigits n cs with
      | none => simp [htd]
      | some p =>
        simp only [htd, Option.map_some', Option.some_inj]
        intro h
        have hp := takeDigits_spec n cs p.1 p.2 (by rw [htd])
        rw [Prod.mk.injEq] at h
        obtain ⟨h1, h2⟩ := h
        subst h1
        refine ⟨by simp [hp.1], ?_⟩
        intro x hx
        rcases List.mem_cons.1 hx with rfl | hx
        · exact hd
        · exact hp.2 x hx
    · simp

theorem greedy12_bound (cs ds r : Str) (h : greedy12 cs = some (ds, r)) :
    digitsVal ds < 100 := by
  unfold greedy12 at h
  split at h
  · rename_i p h2
    rw [Option.some_inj] at h
    have hp := takeDigits_spec 2 cs ds r (by rw [h2, h])
    have := digitsVal_lt ds hp.2
    rw [hp.1] at this
    omega
  · rename_i h2
    have hp := takeDigits_spec 1 cs ds r h
    have := digitsVal_lt ds hp.2
    rw [hp.1] at this
    omega

theorem numThenSep_bound (cs : Str) (v dg : Nat) (r : Str)
    (h : numThenSep cs = some (v, dg, r)) : v < 100 := by
  unfold numThenSep at h
  split at h
  · rename_i p ds r1 h2
    split at h
    · rename_i r2 hnd
      rw [Option.some_inj] at h
      obtain ⟨rfl, rfl, rfl⟩ := h
      have hp := takeDigits_spec 2 cs ds r1 h2
      have := digitsVal_lt ds hp.2
      rw [hp.1] at this; omega
    · rename_i hnd
      split at h
      · rename_i q ds1 r1' h1
        split at h
        · rename_i r2 hnd1
          rw [Option.some_inj] at h
          obtain ⟨rfl, rfl, rfl⟩ := h
          have hp := takeDigits_spec 1 cs ds1 r1' h1
          have := digitsVal_lt ds1 hp.2
          rw [hp.1] at this; omega
        · cases h
      · cases h
  · rename_i h2
    split at h
    · rename_i q ds1 r1' h1
      split at h
      · rename_i r2 hnd1
        rw [Option.some_inj] at h
        obtain ⟨rfl, rfl, rfl⟩ := h
        have hp := takeDigits_spec 1 cs ds1 r1' h1
        have := digitsVal_lt ds1 hp.2
        rw [hp.1] at this; omega
      · cases h
    · cases h

theorem alt1_bound (cs : Str) (y m d len : Nat) (h : alt1 cs = some (y, m, d, len)) :
    y < 10000 ∧ m < 100 ∧ d < 100 := by
  unfold alt1 at h
  split at h
  · cases h
  · rename_i p ys r1 h4
    split at h
    · cases h
    · rename_i r2 hnd
      split at h
      · cases h
      · rename_i q mv mdg r3 hm
        split at h
        · cases h
        · rename_i g ds r4 hg
          rw [Option.some_inj, Prod.mk.injEq, Prod.mk.injEq, Prod.mk.injEq] at h
          obtain ⟨e1, e2, e3, e4⟩ := h
          have hp := takeDigits_spec 4 cs ys r1 h4
          have hy := digitsVal_lt ys hp.2
          rw [hp.1] at hy
          have hmb := numThenSep_bound r2 mv mdg r3 hm
          have hdb := greedy12_bound r3 ds r4 hg
          exact ⟨by omega, by omega, by omega⟩

theorem alt2_bound (cs : Str) (y m d len : Nat) (h : alt2 cs = some (y, m, d, len)) :
    y < 10000 ∧ m < 100 ∧ d < 100 := by
  unfold alt2 at h
  split at h
  · cases h
  · rename_i p dv ddg r1 h1
    split at h
    · cases h
    · rename_i q mv mdg r2 h2
      split at h
      · cases h
      · rename_i g ys r3 h4
        rw [Option.some_inj, Prod.mk.injEq, Prod.mk.injEq, Prod.mk.injEq] at h
        obtain ⟨e1, e2, e3, e4⟩ := h
        have hp := takeDigits_spec 4 r2 ys r3 h4
        have hy := digitsVal_lt ys hp.2
        rw [hp.1] at hy
        have hmb := numThenSep_bound r1 mv mdg r2 h2
        have hdb := numThenSep_bound cs dv ddg r1 h1
        exact ⟨by omega, by omega, by omega⟩

theorem tryAlts_bound (cs : Str) (y m d len : Nat) (h : tryAlts cs = some (y, m, d, len)) :
    y < 10000 ∧ m < 100 ∧ d < 100 := by
  unfold tryAlts at h
  split at h
  · rename_i r h1
    rw [Option.some_inj] at h
    subst h
    exact alt1_bound cs y m d len h1
  · exact alt2_bound cs y m d len h

theorem findDateMatchAux_bound : ∀ (cs : Str) (st : Nat) (mt : RegexMatch),
    findDateMatchAux cs st = some mt → mt.y < 10000 ∧ mt.m < 100 ∧ mt.d < 100
  | [], st, mt => by simp [findDateMatchAux]
  | c :: cs, st, mt => by
    intro h
    unfold findDateMatchAux at h
    split at h
    · rename_i r y m d len ht
      rw [Option.some_inj] at h
      subst h
      exact tryAlts_bound (c :: cs) y m d len ht
    · exact findDateMatchAux_bound cs (st + 1) mt h

theorem findDateMatch_bound (s : Str) (mt : RegexMatch) (h : findDateMatch s = some mt) :
    mt.y < 10000 ∧ mt.m < 100 ∧ mt.d < 100 :=
  findDateMatchAux_bound s 0 mt h

theorem jsMakeDateMs_ok (y m d : Nat) (hy : y < 10000) (hm : m < 100) (hd : d < 100) :
    isoRangeOk (jsMakeDateMs y ((m : Int) - 1) d) = true := by
  unfold jsMakeDateMs daysFromCivil isoRangeOk msPerDay
  simp only [decide_eq_true_eq]
  split <;> split <;> split <;> omega


/-- C6 amended: a filename whose matched digits form an out-of-range
calendar date does NOT make the extractor return none.  JS
`new Date(y, m-1, d)` never throws for matched digits: it rolls the excess
months/days over (month 13, day 45 of 2023 become 2024-02-14), the resulting
time value is always inside the valid ISO range (so the `toISOString()`
guard in the catch never fires), and the rolled-over date plus the residual
title are returned and propagated as the episode's parsed date.  `none` is
returned only when the pattern does not match at all. -/
theorem C6_amended_theorem (name : Str) (mt : RegexMatch)
    (h : findDateMatch name = some mt) :
    tryParsingDateFromName name =
      some (jsMakeDateMs mt.y ((mt.m : Int) - 1) mt.d,
        stripLeadingPunct (removeFirstOcc name ((name.drop mt.start).take mt.len))) := by
  have hb := findDateMatch_bound name mt h
  unfold tryParsingDateFromName
  rw [h]
  simp only [jsMakeDateMs_ok mt.y mt.m mt.d hb.1 hb.2.1 hb.2.2, if_true]

/-- C6 amended witness: the regex matches "2023-13-45 foo.mp3" and the
extractor returns the rolled-over date with residual title "foo.mp3". -/
theorem C6_amended_witness :
    tryParsingDateFromName (str "2023-13-45 foo.mp3") =
      some (jsMakeDateMs 2023 12 45, str "foo.mp3") :=
  C6_amended_theorem (str "2023-13-45 foo.mp3") ⟨0, 2023, 13, 45, 10⟩ (by decide)

/-- C6 counterexample: on "2023-13-45 foo.mp3" (month 13, day 45) the
extractor does not return none; it returns the rolled-over instant
2024-02-14T00:00:00Z with the residual title, which the caller then uses as
the episode's parsed date. -/
theorem C6_counterexample :
    tryParsingDateFromName (str "2023-13-45 foo.mp3") ≠ none ∧
    tryParsingDateFromName (str "2023-13-45 foo.mp3") =
      some (1707868800000, str "foo.mp3") ∧
    isoStr 1707868800000 = str "2024-02-14T00:00:00.000Z" := by decide


/-! ### Diff and write-suppression lemmas -/

theorem diffF_self : ∀ (fuel : Nat) (l : List Str), diffF fuel l l = []
  | 0, _ => rfl
  | _ + 1, [] => rfl
  | fuel + 1, x :: xs => by
    simp only [diffF, if_pos rfl]
    exact diffF_self fuel xs

theorem diffF_eq_nil : ∀ (fuel : Nat) (X Y : List Str),
    X.length + Y.length ≤ fuel → diffF fuel X Y = [] → X = Y
  | 0, X, Y => by
    intro hf _
    cases X <;> cases Y <;> simp_all
  | fuel + 1, [], [] => by intro _ _; rfl
  | fuel + 1, [], _ :: _ => by intro _ h; cases h
  | fuel + 1, _ :: _, [] => by intro _ h; cases h
  | fuel + 1, o :: os, n :: ns => by
    intro hf h
    simp only [diffF] at h
    split at h
    · rename_i heq
      subst heq
      have := diffF_eq_nil fuel os ns (by simp at hf; omega) h
      rw [this]
    · split at h
      · cases h
      · split at h
        · cases h
        · cases h

theorem getChangedLinesL_self (l : List Str) : getChangedLinesL l l = [] :=
  diffF_self _ l

theorem getChangedLinesL_eq_nil {X Y : List Str} (h : getChangedLinesL X Y = []) : X = Y :=
  diffF_eq_nil _ X Y le_rfl h

/-- Old-side lines of the diff come from the old file (or are the empty
filler of an added-lines pair). -/
theorem diffF_old_mem : ∀ (fuel : Nat) (X Y : List Str) (c : Change),
    c ∈ diffF fuel X Y → c.oldL ∈ X ∨ c.oldL = []
  | 0, _, _, _ => by simp [diffF]
  | _ + 1, [], [], _ => by simp [diffF]
  | fuel + 1, [], n :: ns, c => by
    simp only [diffF, List.mem_cons]
    rintro (rfl | h)
    · right; rfl
    · exact diffF_old_mem fuel [] ns c h
  | fuel + 1, o :: os, [], c => by
    simp only [diffF, List.mem_cons]
    rintro (rfl | h)
    · left; left; rfl
    · rcases diffF_old_mem fuel os [] c h with h2 | h2
      · exact Or.inl (Or.inr h2)
      · exact Or.inr h2
  | fuel + 1, o :: os, n :: ns, c => by
    simp only [diffF]
    split
    · intro h
      rcases diffF_old_mem fuel os ns c h with h2 | h2
      · left; exact List.mem_cons_of_mem _ h2
      · right; exact h2
    · split
      · rename_i k hk
        intro h
        rcases List.mem_append.1 h with h2 | h2
        · right
          rcases List.mem_map.1 h2 with ⟨x, _, rfl⟩
          rfl
        · exact diffF_old_mem fuel (o :: os) (ns.drop k) c h2
      · split
        · rename_i k hk
          intro h
          rcases List.mem_append.1 h with h2 | h2
          · left
            rcases List.mem_map.1 h2 with ⟨x, hx, rfl⟩
            rcases List.mem_cons.1 hx with rfl | hx
            · simp
            · exact List.mem_cons_of_mem _ (List.mem_of_mem_take hx)
          · rcases diffF_old_mem fuel (os.drop k) (n :: ns) c h2 with h3 | h3
            · left; exact List.mem_cons_of_mem _ (List.mem_of_mem_drop h3)
            · right; exact h3
        · intro h
          rcases List.mem_cons.1 h with rfl | h2
          · left; simp
          · rcases diffF_old_mem fuel os ns c h2 with h3 | h3
            · left; exact List.mem_cons_of_mem _ h3
            · right; exact h3

theorem splitOnChar_ne_nil (sep : Char) : ∀ (s : Str), splitOnChar sep s ≠ []
  | [] => by simp [splitOnChar]
  | c :: cs => by
    simp only [splitOnChar]
    split
    · simp
    · cases h : splitOnChar sep cs <;> simp

theorem splitOnChar_eq_single_nil {sep : Char} : ∀ {s : Str},
    splitOnChar sep s = [[]] → s = []
  | [], _ => rfl
  | c :: cs, h => by
    simp only [splitOnChar] at h
    split at h
    · rw [List.cons.injEq] at h
      exact absurd h.2 (splitOnChar_ne_nil sep cs)
    · split at h
      · rw [List.cons.injEq] at h
        cases h.1
      · rw [List.cons.injEq] at h
        cases h.1

/-- C8: for an existing target file, `writeFileIfChanged` (i) performs no
write when old and new contents are byte-identical; (ii) performs no write
when every changed line pair of the diff matches the ignore rule (the
volatile `<lastBuildDate>` marker occurring in both lines of the pair); and
(iii) performs the write as soon as some changed line pair does not match
the ignore rule. -/
theorem C8_theorem (oldC newC : Str) :
    (oldC = newC → writeFileIfChangedDecision (some oldC) newC = false) ∧
    ((∀ c ∈ getChangedLines oldC newC, ignoredChange c = true) →
      writeFileIfChangedDecision (some oldC) newC = false) ∧
    ((∃ c ∈ getChangedLines oldC newC, ignoredChange c = false) →
      writeFileIfChangedDecision (some oldC) newC = true) := by
  refine ⟨?_, ?_, ?_⟩
  · intro h
    subst h
    simp [writeFileIfChangedDecision]
  · intro hall
    unfold writeFileIfChangedDecision
    split
    · rfl
    · have hfil : List.filter (fun c => !ignoredChange c) (getChangedLines oldC newC) = [] := by
        rw [List.filter_eq_nil_iff]
        intro c hc
        simp [hall c hc]
      simp [hfil]
  · rintro ⟨c, hc, hign⟩
    unfold writeFileIfChangedDecision
    split
    · rename_i h
      rw [Option.some_inj] at h
      rw [h] at hc
      have hnil2 : getChangedLines newC newC = [] := getChangedLinesL_self _
      rw [hnil2] at hc
      cases hc
    · simp only [Option.getD_some, decide_eq_true_eq, ne_eq]
      intro hnil
      have : c ∈ List.filter (fun c => !ignoredChange c) (getChangedLines oldC newC) :=
        List.mem_filter.2 ⟨hc, by simp [hign]⟩
      rw [hnil] at this
      cases this

/-- C8 witness: old and new feed XML differing only in the volatile
`lastBuildDate` line produce no write. -/
theorem C8_theorem_witness :
    writeFileIfChangedDecision
      (some (str "<rss>\n<lastBuildDate>A</lastBuildDate>\n</rss>"))
      (str "<rss>\n<lastBuildDate>B</lastBuildDate>\n</rss>") = false :=
  (C8_theorem _ _).2.1 (by decide)

/-- No file at the target: any non-empty content is written (every diff
pair has an empty old line, which cannot match the ignore rule). -/
theorem writeDecision_none (v : Str) (hv : v ≠ []) :
    writeFileIfChangedDecision none v = true := by
  unfold writeFileIfChangedDecision
  split
  · rename_i h; cases h
  · simp only [Option.getD_none, decide_eq_true_eq, ne_eq]
    intro hnil
    have hfilter : ∀ c ∈ getChangedLines [] v, (!ignoredChange c) = true := by
      intro c hc
      rcases diffF_old_mem _ _ _ c hc with h2 | h2
      · have h3 : c.oldL = [] := List.mem_singleton.1 h2
        simp [ignoredChange, ignoreChangedLinesIncluding, h3, includesL, str, List.isEmpty]
      · simp [ignoredChange, ignoreChangedLinesIncluding, h2, includesL, str, List.isEmpty]
    rw [List.filter_eq_self.2 hfilter] at hnil
    have := getChangedLinesL_eq_nil hnil
    exact hv (splitOnChar_eq_single_nil this.symm)

/-- C10: when no file exists at the target path, every changed pair of the
diff has an empty old line, which cannot contain an ignore-list marker, so
the ignore rules can never suppress the initial creation: any non-empty
content is always written. -/
theorem C10_theorem (v : Str) (hv : v ≠ []) :
    writeFileIfChangedDecision none v = true := writeDecision_none v hv

/-- C10 witness at concrete content. -/
theorem C10_theorem_witness : writeFileIfChangedDecision none (str "x") = true :=
  C10_theorem (str "x") (by decide)


/-! ### Priority bucketing -/

theorem dedupAux_mem : ∀ (l seen : List Int) (x : Int),
    x ∈ dedupAux seen l ↔ x ∈ l ∧ x ∉ seen
  | [], seen, x => by simp [dedupAux]
  | y :: ys, seen, x => by
    simp only [dedupAux]
    split
    · rename_i hy
      rw [dedupAux_mem ys seen x]
      simp only [List.mem_cons]
      constructor
      · rintro ⟨h1, h2⟩; exact ⟨Or.inr h1, h2⟩
      · rintro ⟨h1 | h1, h2⟩
        · subst h1; exact absurd hy h2
        · exact ⟨h1, h2⟩
    · rename_i hy
      simp only [List.mem_cons]
      constructor
      · rintro (rfl | h1)
        · exact ⟨Or.inl rfl, hy⟩
        · rw [dedupAux_mem ys (y :: seen) x] at h1
          obtain ⟨h2, h3⟩ := h1
          exact ⟨Or.inr h2, fun hc => h3 (List.mem_cons_of_mem _ hc)⟩
      · rintro ⟨rfl | h1, h2⟩
        · exact Or.inl rfl
        · by_cases hxy : x = y
          · exact Or.inl hxy
          · right
            rw [dedupAux_mem ys (y :: seen) x]
            exact ⟨h1, by simp [hxy, h2]⟩

theorem dedupAux_nodup : ∀ (l seen : List Int), (dedupAux seen l).Nodup
  | [], seen => List.nodup_nil
  | y :: ys, seen => by
    simp only [dedupAux]
    split
    · exact dedupAux_nodup ys seen
    · refine List.nodup_cons.2 ⟨?_, dedupAux_nodup ys (y :: seen)⟩
      intro hc
      rw [dedupAux_mem] at hc
      exact hc.2 (List.mem_cons_self y seen)

theorem dedupFirst_mem (l : List Int) (x : Int) : x ∈ dedupFirst l ↔ x ∈ l := by
  unfold dedupFirst
  rw [dedupAux_mem]
  simp

theorem dedupFirst_nodup (l : List Int) : (dedupFirst l).Nodup := dedupAux_nodup l []

theorem sorted_head_min {l : List Int} (h : List.Sorted (· ≤ ·) l) (x y : Int)
    (hx : x ∈ l) (hy : l.head? = some y) : y ≤ x := by
  cases l with
  | nil => cases hx
  | cons a t =>
    rw [List.head?_cons, Option.some_inj] at hy
    subst hy
    rcases List.mem_cons.1 hx with rfl | hx
    · exact le_refl x
    · exact (List.sorted_cons.1 h).1 x hx

/-- C7: the master URL file groups the feed URLs by the priority of the
folder name's first `-`-delimited segment: (i) the bucket priorities appear
in strictly descending order; (ii) under the invariant that every priority
is at least `-1`, the unmatched bucket `-1` is the last one whenever it is
present; (iii) the content is exactly the buckets (each in folder order)
concatenated in that order; and (iv) end to end, folders `A-Show1`,
`B-Show2`, `Show3` with priority list `["B","A"]` yield the master list
Show2, Show1, Show3. -/
theorem C7_theorem (pairs : List (Int × Str)) :
    List.Pairwise (· > ·) ((sortIntsAsc (dedupFirst (pairs.map Prod.fst))).reverse) ∧
    ((-1 : Int) ∈ pairs.map Prod.fst → (∀ p ∈ pairs.map Prod.fst, -1 ≤ p) →
      ((sortIntsAsc (dedupFirst (pairs.map Prod.fst))).reverse).getLast? = some (-1)) ∧
    buildFeedUrlsContent pairs =
      joinWith (str "\n")
        (((sortIntsAsc (dedupFirst (pairs.map Prod.fst))).reverse).map fun p =>
          joinWith (str "\n") ((pairs.filter fun q => q.1 = p).map Prod.snd)) ∧
    exRunPrio.state.feedUrls =
      some (str "https://host/share/B-Show2/rss/feed.xml\nhttps://host/share/A-Show1/rss/feed.xml\nhttps://host/share/Show3/rss/feed.xml") := by
  refine ⟨?_, ?_, rfl, by decide⟩
  · rw [List.pairwise_reverse]
    have hs : List.Sorted (· ≤ ·) (sortIntsAsc (dedupFirst (pairs.map Prod.fst))) :=
      List.sorted_insertionSort _ _
    have hn : (sortIntsAsc (dedupFirst (pairs.map Prod.fst))).Nodup :=
      (List.perm_insertionSort _ _).symm.nodup (dedupFirst_nodup _)
    have := hs.and hn
    exact this.imp fun h => lt_of_le_of_ne h.1 h.2
  · intro hmem hge
    rw [List.getLast?_reverse]
    have hs : List.Sorted (· ≤ ·) (sortIntsAsc (dedupFirst (pairs.map Prod.fst))) :=
      List.sorted_insertionSort _ _
    have hm1 : (-1 : Int) ∈ sortIntsAsc (dedupFirst (pairs.map Prod.fst)) :=
      (List.perm_insertionSort _ _).symm.subset ((dedupFirst_mem _ _).2 hmem)
    cases hh : (sortIntsAsc (dedupFirst (pairs.map Prod.fst))).head? with
    | none =>
      rw [List.head?_eq_none_iff] at hh
      rw [hh] at hm1
      cases hm1
    | some y =>
      have h1 : y ≤ -1 := sorted_head_min hs _ y hm1 hh
      have h2 : (-1 : Int) ≤ y := by
        have hy : y ∈ sortIntsAsc (dedupFirst (pairs.map Prod.fst)) := by
          cases hl : sortIntsAsc (dedupFirst (pairs.map Prod.fst)) with
          | nil => rw [hl] at hh; cases hh
          | cons a t =>
            rw [hl] at hh
            rw [List.head?_cons, Option.some_inj] at hh
            subst hh
            exact List.mem_cons_self _ _
        have : y ∈ pairs.map Prod.fst :=
          (dedupFirst_mem _ _).1 ((List.perm_insertionSort _ _).subset hy)
        exact hge y this
      have : y = -1 := le_antisymm h1 h2
      rw [this]

/-- C7 witness: with priorities 0 and -1 present, the `-1` bucket is last. -/
theorem C7_theorem_witness :
    ((sortIntsAsc (dedupFirst (([((0 : Int), str "a"), (-1, str "b")]).map Prod.fst))).reverse).getLast? =
      some (-1) :=
  (C7_theorem [((0 : Int), str "a"), (-1, str "b")]).2.1 (by decide) (by decide)


/-! ### Folder-level sidecar behavior -/

theorem coverStep_preserves (env : Env) (md : RootMeta) (name : Str) (st : FolderState) :
    ((coverStep env md name st).1).sidecar = st.sidecar ∧
    ((coverStep env md name st).1).details = st.details ∧
    ((coverStep env md name st).1).items = st.items ∧
    ((coverStep env md name st).1).feed = st.feed := by
  unfold coverStep
  split
  · exact ⟨rfl, rfl, rfl, rfl⟩
  · split <;> (dsimp only; split <;> exact ⟨rfl, rfl, rfl, rfl⟩)

theorem writeJsonChan_fst (d : Option SidecarFile) (v : ChanMeta) :
    (writeJsonIfChangedChan d v).1 = some (.ok v) := by
  cases d with
  | none => rfl
  | some sf =>
    cases sf with
    | corrupt => rfl
    | ok c =>
      simp only [writeJsonIfChangedChan]
      split
      · rename_i h; rw [h]
      · rfl

/-- C5: for a channel whose sidecar exists (and parses), a generation pass
writes back a sidecar whose channel guid and pubDate equal the stored ones;
fresh values (`uuid()` from the supply, `new Date()` = now) end up in the
sidecar only when no sidecar file existed. -/
theorem C5_theorem (env : Env) (sup : Nat → Str) (md : RootMeta) (name : Str)
    (st : FolderState) (now : Int) (k0 : Nat) :
    (∀ cm, st.sidecar = some (.ok cm) →
      ∃ cmF, (generateFeedForFolder env sup md name st now k0).state.sidecar =
          some (.ok cmF) ∧ cmF.guid = cm.guid ∧ cmF.pubDate = cm.pubDate) ∧
    (st.sidecar = none →
      ∃ cmF, (generateFeedForFolder env sup md name st now k0).state.sidecar =
          some (.ok cmF) ∧ cmF.guid = sup k0 ∧ cmF.pubDate = now) := by
  constructor
  · intro cm hcm
    unfold generateFeedForFolder
    dsimp only
    rw [(coverStep_preserves env md name st).1, hcm]
    simp only [readCreateJsonChan, writeJsonChan_fst]
    exact ⟨_, rfl, rfl, rfl⟩
  · intro hnone
    unfold generateFeedForFolder
    dsimp only
    rw [(coverStep_preserves env md name st).1, hnone]
    simp only [readCreateJsonChan, writeJsonChan_fst]
    exact ⟨_, rfl, rfl, rfl⟩

/-- C5 witness at a concrete folder with a stored sidecar. -/
theorem C5_theorem_witness :
    ∃ cmF, (generateFeedForFolder exEnv exSup exRootMetaPlain (str "Show") exFolderPrior
        1700000500000 0).state.sidecar = some (.ok cmF) ∧
      cmF.guid = str "chan-guid" ∧ cmF.pubDate = 1700000000000 :=
  (C5_theorem exEnv exSup exRootMetaPlain (str "Show") exFolderPrior
    1700000500000 0).1 exChanPrior rfl


/-- The sidecar written by one folder run is exactly `chanAfter` of the
loaded channel metadata (the parsed sidecar, or the fresh defaults when no
sidecar existed). -/
theorem folder_run_sidecar_char (env : Env) (sup : Nat → Str) (md : RootMeta) (name : Str)
    (st : FolderState) (now : Int) (k0 : Nat) :
    (∀ cm, st.sidecar = some (.ok cm) →
      (generateFeedForFolder env sup md name st now k0).state.sidecar =
        some (.ok (chanAfter env sup md name st k0 cm))) ∧
    (st.sidecar = none →
      (generateFeedForFolder env sup md name st now k0).state.sidecar =
        some (.ok (chanAfter env sup md name st k0 (defaultChanMeta md name (sup k0) now)))) := by
  constructor
  · intro cm hcm
    unfold generateFeedForFolder
    dsimp only
    rw [(coverStep_preserves env md name st).1, hcm]
    simp only [readCreateJsonChan, writeJsonChan_fst]
    rw [(coverStep_preserves env md name st).2.1, (coverStep_preserves env md name st).2.2.1]
    rfl
  · intro hnone
    unfold generateFeedForFolder
    dsimp only
    rw [(coverStep_preserves env md name st).1, hnone]
    simp only [readCreateJsonChan, writeJsonChan_fst]
    rw [(coverStep_preserves env md name st).2.1, (coverStep_preserves env md name st).2.2.1]
    rfl


/-! ### Item-metadata lookup through the episode loop -/

theorem lookupA_append (f : Str) : ∀ (a b : List (Str × EpMeta)),
    lookupA f (a ++ b) =
      match lookupA f a with
      | some v => some v
      | none => lookupA f b
  | [], _ => rfl
  | (k, v) :: rest, b => by
    simp only [List.cons_append, lookupA]
    split
    · rfl
    · exact lookupA_append f rest b

theorem lookupA_eq_none (f : Str) : ∀ (l : List (Str × EpMeta)),
    (∀ e ∈ l, e.1 ≠ f) → lookupA f l = none
  | [], _ => rfl
  | (k, v) :: rest, h => by
    simp only [lookupA]
    rw [if_neg (h (k, v) (List.mem_cons_self _ _))]
    exact lookupA_eq_none f rest fun e he => h e (List.mem_cons_of_mem _ he)

/-- One episode-loop step appends exactly one entry, keyed by the file name;
when a prior entry exists for the file, the new entry reuses its guid and
duration. -/
theorem buildItemsStep_spec (env : Env) (sup : Nat → Str) (name : Str) (cm : ChanMeta)
    (hide : Bool) (cover : Str) (total : Nat) (acc : BuildAcc) (p : Nat × Str) :
    ∃ entry, (buildItemsStep env sup name cm hide cover total acc p).newItems =
        acc.newItems ++ [(p.2, entry)] ∧
      ∀ q, lookupA p.2 cm.itemMetadata = some q →
        entry.guid = q.guid ∧ entry.duration = q.duration := by
  unfold buildItemsStep
  dsimp only
  refine ⟨_, rfl, ?_⟩
  intro q hq
  simp [hq]

theorem foldl_items_keep (env : Env) (sup : Nat → Str) (name : Str) (cm : ChanMeta)
    (hide : Bool) (cover : Str) (total : Nat) (f : Str) :
    ∀ (fs : List (Nat × Str)) (acc : BuildAcc), (∀ p ∈ fs, p.2 ≠ f) →
      lookupA f ((fs.foldl (buildItemsStep env sup name cm hide cover total) acc).newItems) =
        lookupA f acc.newItems
  | [], _, _ => rfl
  | p :: rest, acc, h => by
    simp only [List.foldl_cons]
    rw [foldl_items_keep env sup name cm hide cover total f rest _
      fun q hq => h q (List.mem_cons_of_mem _ hq)]
    obtain ⟨entry, he, _⟩ := buildItemsStep_spec env sup name cm hide cover total acc p
    rw [he, lookupA_append]
    have hne : lookupA f [(p.2, entry)] = none := by
      simp [lookupA, h p (List.mem_cons_self _ _)]
    cases hx : lookupA f acc.newItems <;> simp [hx, hne]

theorem foldl_items_lookup (env : Env) (sup : Nat → Str) (name : Str) (cm : ChanMeta)
    (hide : Bool) (cover : Str) (total : Nat) (f : Str) :
    ∀ (fs : List (Nat × Str)) (acc : BuildAcc), (fs.map Prod.snd).Nodup →
      (∀ e ∈ acc.newItems, e.1 ≠ f) → f ∈ fs.map Prod.snd →
      ∃ e, lookupA f ((fs.foldl (buildItemsStep env sup name cm hide cover total) acc).newItems) =
          some e ∧
        ∀ q, lookupA f cm.itemMetadata = some q → e.guid = q.guid ∧ e.duration = q.duration
  | [], _, _, _, hmem => absurd hmem (by simp)
  | p :: rest, acc, hnd, hacc, hmem => by
    obtain ⟨entry, he, hprop⟩ := buildItemsStep_spec env sup name cm hide cover total acc p
    by_cases hf : p.2 = f
    · have hrest : ∀ q ∈ rest, q.2 ≠ f := by
        intro q hq hqf
        have hpn : p.2 ∉ rest.map Prod.snd := (List.nodup_cons.1 (by simpa using hnd)).1
        exact hpn (hf ▸ hqf ▸ List.mem_map_of_mem Prod.snd hq)
      refine ⟨entry, ?_, fun q hq => hprop q (by rw [hf]; exact hq)⟩
      rw [List.foldl_cons, foldl_items_keep env sup name cm hide cover total f rest _ hrest,
        he, lookupA_append, lookupA_eq_none f acc.newItems hacc]
      simp [lookupA, hf]
    · have hmem2 : f ∈ rest.map Prod.snd := by
        rcases by simpa using hmem with h1 | h1
        · exact absurd h1.symm hf
        · simpa using h1
      have hnd2 : (rest.map Prod.snd).Nodup := (List.nodup_cons.1 (by simpa using hnd)).2
      have hacc2 : ∀ e ∈ (buildItemsStep env sup name cm hide cover total acc p).newItems,
          e.1 ≠ f := by
        rw [he]
        intro e hee
        rcases List.mem_append.1 hee with h1 | h1
        · exact hacc e h1
        · rcases List.mem_singleton.1 h1 with rfl
          exact hf
      rw [List.foldl_cons]
      exact foldl_items_lookup env sup name cm hide cover total f rest _ hnd2 hacc2 hmem2

/-! ### Permutation facts for the sorted listings -/

theorem insertBy_perm (le : Str → Str → Bool) (x : Str) :
    ∀ l : List Str, (insertBy le x l).Perm (x :: l)
  | [] => List.Perm.refl _
  | y :: ys => by
    unfold insertBy
    split
    · exact List.Perm.refl _
    · exact ((insertBy_perm le x ys).cons y).trans (List.Perm.swap x y ys)

theorem sortBy_perm (le : Str → Str → Bool) : ∀ l : List Str, (sortBy le l).Perm l
  | [] => List.Perm.refl _
  | x :: xs => (insertBy_perm le x (sortBy le xs)).trans ((sortBy_perm le xs).cons x)

theorem readdir_perm (l : List Str) : (readdir l).Perm l := sortBy_perm _ l

theorem sortMP3_perm (l : List Str) : (sortMP3 l).Perm l := sortBy_perm _ l

theorem folderMp3s_mem (st : FolderState) (f : Str) :
    f ∈ folderMp3s st ↔ f ∈ st.items ∧ endsWithL f (str ".mp3") = true := by
  unfold folderMp3s
  rw [(sortMP3_perm _).mem_iff, List.mem_filter, (readdir_perm _).mem_iff]

theorem folderMp3s_nodup (st : FolderState) (h : st.items.Nodup) : (folderMp3s st).Nodup :=
  ((sortMP3_perm _).symm.nodup (((readdir_perm _).symm.nodup h).filter _))


theorem chanAfter_itemMetadata (env : Env) (sup : Nat → Str) (md : RootMeta) (name : Str)
    (st : FolderState) (k0 : Nat) (cm : ChanMeta) :
    (chanAfter env sup md name st k0 cm).itemMetadata =
      ((folderMp3s st).enum.foldl
        (buildItemsStep env sup name
          { cm with
            categories := md.categories ++ matchedPrefs md.prefixPriority name,
            title := strippedTitle md.prefixPriority name,
            description := (folderDh md name st).1 }
          (folderDh md name st).2 (coverStep env md name st).2.2 (folderMp3s st).length)
        { k := k0 + 1, newItems := [], feedItems := [] }).newItems := rfl

/-- C2: an episode file whose name is unchanged across two consecutive runs
keeps its guid and cached duration: the second run reads the sidecar the
first run wrote, finds the prior entry under the filename, and reuses its
guid and duration verbatim — even if the items listing changed arbitrarily
between the runs and the clock, uuid supply, or root configuration differ.
A guid once assigned under a filename is therefore never regenerated. -/
theorem C2_theorem (env : Env) (sup1 sup2 : Nat → Str) (md1 md2 : RootMeta) (name : Str)
    (st : FolderState) (now1 now2 : Int) (k1 k2 : Nat) (f : Str) (items2 : List Str)
    (hfm : endsWithL f (str ".mp3") = true)
    (h1 : f ∈ st.items) (h2 : f ∈ items2)
    (hnd1 : st.items.Nodup) (hnd2 : items2.Nodup)
    (hsc : st.sidecar = none ∨ ∃ c, st.sidecar = some (SidecarFile.ok c)) :
    ∃ cm1 cm2 e1 e2,
      (generateFeedForFolder env sup1 md1 name st now1 k1).state.sidecar =
        some (SidecarFile.ok cm1) ∧
      (generateFeedForFolder env sup2 md2 name
          { (generateFeedForFolder env sup1 md1 name st now1 k1).state with items := items2 }
          now2 k2).state.sidecar = some (SidecarFile.ok cm2) ∧
      lookupA f cm1.itemMetadata = some e1 ∧
      lookupA f cm2.itemMetadata = some e2 ∧
      e2.guid = e1.guid ∧ e2.duration = e1.duration := by
  have hchar1 : ∃ cm0, (generateFeedForFolder env sup1 md1 name st now1 k1).state.sidecar =
      some (SidecarFile.ok (chanAfter env sup1 md1 name st k1 cm0)) := by
    rcases hsc with hnone | ⟨c, hok⟩
    · exact ⟨_, (folder_run_sidecar_char env sup1 md1 name st now1 k1).2 hnone⟩
    · exact ⟨c, (folder_run_sidecar_char env sup1 md1 name st now1 k1).1 c hok⟩
  obtain ⟨cm0, hrun1⟩ := hchar1
  have hmem1 : f ∈ (folderMp3s st).enum.map Prod.snd := by
    rw [List.enum_map_snd]
    exact (folderMp3s_mem st f).2 ⟨h1, hfm⟩
  have hndm1 : ((folderMp3s st).enum.map Prod.snd).Nodup := by
    rw [List.enum_map_snd]; exact folderMp3s_nodup st hnd1
  obtain ⟨e1, he1, _⟩ := foldl_items_lookup env sup1 name _ (folderDh md1 name st).2
    (coverStep env md1 name st).2.2 (folderMp3s st).length f ((folderMp3s st).enum)
    { k := k1 + 1, newItems := [], feedItems := [] } hndm1 (by simp) hmem1
  have he1' : lookupA f (chanAfter env sup1 md1 name st k1 cm0).itemMetadata = some e1 := by
    rw [chanAfter_itemMetadata]
    exact he1
  -- run 2 starts from run 1's sidecar
  have hst2 : ({ (generateFeedForFolder env sup1 md1 name st now1 k1).state with
      items := items2 } : FolderState).sidecar =
      some (SidecarFile.ok (chanAfter env sup1 md1 name st k1 cm0)) := hrun1
  have hrun2 := (folder_run_sidecar_char env sup2 md2 name
    { (generateFeedForFolder env sup1 md1 name st now1 k1).state with items := items2 }
    now2 k2).1 _ hst2
  have hmem2 : f ∈ (folderMp3s { (generateFeedForFolder env sup1 md1 name st now1 k1).state with
      items := items2 }).enum.map Prod.snd := by
    rw [List.enum_map_snd]
    exact (folderMp3s_mem _ f).2 ⟨h2, hfm⟩
  have hndm2 : ((folderMp3s { (generateFeedForFolder env sup1 md1 name st now1 k1).state with
      items := items2 }).enum.map Prod.snd).Nodup := by
    rw [List.enum_map_snd]
    exact folderMp3s_nodup _ hnd2
  obtain ⟨e2, he2, hprop⟩ := foldl_items_lookup env sup2 name
    { chanAfter env sup1 md1 name st k1 cm0 with
      categories := md2.categories ++ matchedPrefs md2.prefixPriority name,
      title := strippedTitle md2.prefixPriority name,
      description := (folderDh md2 name
        { (generateFeedForFolder env sup1 md1 name st now1 k1).state with items := items2 }).1 }
    (folderDh md2 name
      { (generateFeedForFolder env sup1 md1 name st now1 k1).state with items := items2 }).2
    (coverStep env md2 name
      { (generateFeedForFolder env sup1 md1 name st now1 k1).state with items := items2 }).2.2
    (folderMp3s { (generateFeedForFolder env sup1 md1 name st now1 k1).state with
      items := items2 }).length f _ { k := k2 + 1, newItems := [], feedItems := [] }
    hndm2 (by simp) hmem2
  have hprop1 := hprop e1 he1'
  refine ⟨_, _, e1, e2, hrun1, hrun2, he1', ?_, hprop1.1, hprop1.2⟩
  rw [chanAfter_itemMetadata]
  exact he2

/-- C2 witness: concrete two-run scenario in which a second episode appears
between the runs; `ep.mp3` keeps guid and duration. -/
theorem C2_theorem_witness :
    ∃ cm1 cm2 e1 e2,
      (generateFeedForFolder exEnv exSup exRootMetaPlain (str "Show") exFolderPrior
        1700000500000 0).state.sidecar = some (SidecarFile.ok cm1) ∧
      (generateFeedForFolder exEnv exSup exRootMetaPlain (str "Show")
          { (generateFeedForFolder exEnv exSup exRootMetaPlain (str "Show") exFolderPrior
              1700000500000 0).state with items := [str "ep.mp3", str "ep2.mp3"] }
          1700000600000 0).state.sidecar = some (SidecarFile.ok cm2) ∧
      lookupA (str "ep.mp3") cm1.itemMetadata = some e1 ∧
      lookupA (str "ep.mp3") cm2.itemMetadata = some e2 ∧
      e2.guid = e1.guid ∧ e2.duration = e1.duration :=
  C2_theorem exEnv exSup exSup exRootMetaPlain exRootMetaPlain (str "Show") exFolderPrior
    1700000500000 1700000600000 0 0 (str "ep.mp3") [str "ep.mp3", str "ep2.mp3"]
    (by decide) (by decide) (by decide) (by decide) (by decide)
    (Or.inr ⟨exChanPrior, rfl⟩)


/-- C4 amended: when a prior EpisodeMetadata entry exists for a filename,
the reconciler reuses ONLY its guid and duration; the emitted title, date
and hideDate are recomputed from the filename, the folder's details
configuration and the episode's current rank, regardless of the prior
(possibly user-edited) values. -/
theorem C4_amended_theorem (env : Env) (sup : Nat → Str) (name : Str) (cm : ChanMeta)
    (hide : Bool) (cover : Str) (total : Nat) (acc : BuildAcc) (idx : Nat) (f : Str)
    (e : EpMeta) (h : lookupA f cm.itemMetadata = some e) :
    (buildItemsStep env sup name cm hide cover total acc (idx, f)).newItems =
      acc.newItems ++ [(f,
        { title :=
            match tryParsingDateFromName f with
            | some (_, t) => if t ≠ [] then t else basenameStrip f (str ".mp3")
            | none => basenameStrip f (str ".mp3"),
          guid := e.guid,
          date :=
            match tryParsingDateFromName f with
            | some (dms, t) => if t ≠ [] then dms else getNewDateString (total - idx) cm.pubDate
            | none => getNewDateString (total - idx) cm.pubDate,
          duration := e.duration,
          hideDate :=
            match tryParsingDateFromName f with
            | some (_, t) => if t ≠ [] then hide else true
            | none => true })] := by
  unfold buildItemsStep
  simp only [h]
  cases htp : tryParsingDateFromName f with
  | none => simp [htp]
  | some p =>
    obtain ⟨dms, t⟩ := p
    by_cases ht : t = []
    · simp [htp, ht]
    · simp [htp, ht]

/-- C4 amended witness: the stored user-edited title and date are replaced
by the recomputed ones while guid and duration are kept. -/
theorem C4_amended_witness :
    (buildItemsStep exEnv exSup (str "Show") exChanPrior false (str "c") 1
        { k := 1, newItems := [], feedItems := [] } (0, str "ep.mp3")).newItems =
      [(str "ep.mp3",
        { title := str "ep", guid := str "g-1", date := 1699999990000, duration := 7,
          hideDate := true })] := by
  rw [C4_amended_theorem exEnv exSup (str "Show") exChanPrior false (str "c") 1
    { k := 1, newItems := [], feedItems := [] } 0 (str "ep.mp3") exPriorEntry (by decide)]
  decide

/-- C4 counterexample: the prior entry for `ep.mp3` carries title
"UserEdited" and date 42; the run emits title "ep" (recomputed from the
filename) and a synthetic date, not the stored ones — only guid `g-1` and
duration 7 survive. -/
theorem C4_counterexample :
    exRunPriorEntry =
      some { title := str "ep", guid := str "g-1", date := 1699999990000,
             duration := 7, hideDate := true } ∧
    exPriorEntry.title = str "UserEdited" ∧ exPriorEntry.date = 42 ∧
    str "ep" ≠ str "UserEdited" ∧ ((1699999990000 : Int) ≠ 42) := by decide


/-! ### Corrupt sidecar behavior -/

theorem coverStep_writes (env : Env) (md : RootMeta) (name : Str) (st : FolderState) :
    ∀ w ∈ (coverStep env md name st).2.1, ∃ a b, w = FsWrite.renameCover name a b := by
  unfold coverStep
  split
  · intro w hw; cases hw
  · dsimp only
    split <;> split
    · intro w hw; cases hw
    · intro w hw; rcases List.mem_singleton.1 hw with rfl; exact ⟨_, _, rfl⟩
    · intro w hw; cases hw
    · intro w hw; rcases List.mem_singleton.1 hw with rfl; exact ⟨_, _, rfl⟩

/-- C3 amended: a sidecar that exists but fails to parse makes
`fs.readJson` inside `readCreateJson` throw; there is no quarantine file
and no reset to defaults anywhere in the code.  The folder's sidecar, feed,
details and items are left untouched (at most the cover rename has already
happened), the folder produces no feed, and the error propagates out of
`generateFeedForFolder` to the top-level catch of `generateFeeds`, aborting
the remainder of the pass. -/
theorem C3_amended_theorem (env : Env) (sup : Nat → Str) (md : RootMeta) (name : Str)
    (st : FolderState) (now : Int) (k0 : Nat)
    (h : st.sidecar = some SidecarFile.corrupt) :
    (generateFeedForFolder env sup md name st now k0).out = Except.error () ∧
    (generateFeedForFolder env sup md name st now k0).state.sidecar =
      some SidecarFile.corrupt ∧
    (generateFeedForFolder env sup md name st now k0).state.feed = st.feed ∧
    (generateFeedForFolder env sup md name st now k0).state.details = st.details ∧
    (generateFeedForFolder env sup md name st now k0).state.items = st.items ∧
    ∀ w ∈ (generateFeedForFolder env sup md name st now k0).writes,
      ∃ a b, w = FsWrite.renameCover name a b := by
  have hcp := coverStep_preserves env md name st
  unfold generateFeedForFolder
  dsimp only
  rw [hcp.1, h]
  simp only [readCreateJsonChan]
  exact ⟨by trivial, by rw [hcp.1, h], hcp.2.2.2, hcp.2.1, hcp.2.2.1,
    coverStep_writes env md name st⟩

/-- C3 amended witness. -/
theorem C3_amended_witness :
    (generateFeedForFolder exEnv exSup exRootMetaPlain (str "Bad") exFolderBad
      1700000000000 0).out = Except.error () ∧
    (generateFeedForFolder exEnv exSup exRootMetaPlain (str "Bad") exFolderBad
      1700000000000 0).state.feed = none :=
  ⟨(C3_amended_theorem exEnv exSup exRootMetaPlain (str "Bad") exFolderBad
      1700000000000 0 rfl).1,
   (C3_amended_theorem exEnv exSup exRootMetaPlain (str "Bad") exFolderBad
      1700000000000 0 rfl).2.2.1⟩

/-- C3 counterexample: a root state with a corrupt-sidecar folder "Bad"
followed by a healthy folder "Good".  No quarantine file is written, the
corrupt sidecar is not reset to defaults, no feed is produced for "Bad",
and even "Good" is skipped (the whole pass aborts): the only write is the
creation of the root metadata.json. -/
theorem C3_counterexample :
    exRunBad.state.folders = [(str "Bad", exFolderBad), (str "Good", exFolderGood)] ∧
    exFolderBad.sidecar = some SidecarFile.corrupt ∧
    exFolderBad.feed = none ∧ exFolderGood.feed = none ∧
    exRunBad.state.feedUrls = none ∧
    exRunBad.writes =
      [FsWrite.jsonRoot
        { coverUrl := str "https://host/share/cover.png",
          websiteUrl := str "https://example.com",
          categories := [str "Religion & Spirituality", str "Education"],
          prefixPriority := [] }] := by decide


/-- Writing the same candidate content twice never writes the second time:
if the first call wrote, the file now equals the content; if it suppressed,
the decision inputs are unchanged. -/
theorem wfc_twice_same (f0 : Option Str) (c : Str) :
    writeFileIfChangedRun ((writeFileIfChangedRun f0 c).1) c =
      ((writeFileIfChangedRun f0 c).1, false) := by
  unfold writeFileIfChangedRun
  by_cases h : writeFileIfChangedDecision f0 c = true
  · simp only [h, if_true]
    have : writeFileIfChangedDecision (some c) c = false := by
      unfold writeFileIfChangedDecision
      simp
    simp [this]
  · simp only [Bool.not_eq_true] at h
    simp [h]


/-! ### Characterizing the episode loop step by step -/

theorem epMetaExt (a b : EpMeta) (h1 : a.title = b.title) (h2 : a.guid = b.guid)
    (h3 : a.date = b.date) (h4 : a.duration = b.duration) (h5 : a.hideDate = b.hideDate) :
    a = b := by
  cases a; cases b; simp_all

theorem chanMetaExt (a b : ChanMeta) (h1 : a.title = b.title)
    (h2 : a.description = b.description) (h3 : a.site_url = b.site_url)
    (h4 : a.categories = b.categories) (h5 : a.explicit = b.explicit)
    (h6 : a.guid = b.guid) (h7 : a.pubDate = b.pubDate)
    (h8 : a.itemMetadata = b.itemMetadata) : a = b := by
  cases a; cases b; simp_all

theorem folderStateExt (a b : FolderState) (h1 : a.files = b.files)
    (h2 : a.details = b.details) (h3 : a.sidecar = b.sidecar)
    (h4 : a.items = b.items) (h5 : a.feed = b.feed) : a = b := by
  cases a; cases b; simp_all

theorem rootStateExt (a b : RootState) (h1 : a.rootMeta = b.rootMeta)
    (h2 : a.folders = b.folders) (h3 : a.feedUrls = b.feedUrls) : a = b := by
  cases a; cases b; simp_all

theorem entryOf_title (env : Env) (sup : Nat → Str) (cm : ChanMeta) (hide : Bool)
    (total k : Nat) (p : Nat × Str) :
    (entryOf env sup cm hide total k p).title = computedTitle p.2 := by
  unfold entryOf computedTitle
  dsimp only
  cases htp : tryParsingDateFromName p.2 with
  | none => rfl
  | some v =>
    obtain ⟨dms, t⟩ := v
    by_cases ht : t ≠ [] <;> simp [ht]

theorem entryOf_date (env : Env) (sup : Nat → Str) (cm : ChanMeta) (hide : Bool)
    (total k : Nat) (p : Nat × Str) :
    (entryOf env sup cm hide total k p).date = computedDate cm.pubDate total p.1 p.2 := by
  unfold entryOf computedDate
  dsimp only
  cases htp : tryParsingDateFromName p.2 with
  | none => rfl
  | some v =>
    obtain ⟨dms, t⟩ := v
    by_cases ht : t ≠ [] <;> simp [ht]

theorem entryOf_hide (env : Env) (sup : Nat → Str) (cm : ChanMeta) (hide : Bool)
    (total k : Nat) (p : Nat × Str) :
    (entryOf env sup cm hide total k p).hideDate = computedHide hide p.2 := by
  unfold entryOf computedHide
  dsimp only
  cases htp : tryParsingDateFromName p.2 with
  | none => rfl
  | some v =>
    obtain ⟨dms, t⟩ := v
    by_cases ht : t ≠ [] <;> simp [ht]

theorem entryOf_prior (env : Env) (sup : Nat → Str) (cm : ChanMeta) (hide : Bool)
    (total k : Nat) (p : Nat × Str) (q : EpMeta)
    (h : lookupA p.2 cm.itemMetadata = some q) :
    (entryOf env sup cm hide total k p).guid = q.guid ∧
    (entryOf env sup cm hide total k p).duration = q.duration := by
  unfold entryOf
  dsimp only
  rw [h]
  exact ⟨rfl, rfl⟩

/-- One loop step, fully characterized by the mirrors. -/
theorem buildItemsStep_char (env : Env) (sup : Nat → Str) (name : Str) (cm : ChanMeta)
    (hide : Bool) (cover : Str) (total : Nat) (acc : BuildAcc) (p : Nat × Str) :
    buildItemsStep env sup name cm hide cover total acc p =
      { k := stepKOf cm acc.k p.2,
        newItems := acc.newItems ++ [(p.2, entryOf env sup cm hide total acc.k p)],
        feedItems := acc.feedItems ++
          [itemOfEntry env name cover cm.explicit p.1 p.2
            (entryOf env sup cm hide total acc.k p)] } := by
  unfold buildItemsStep stepKOf entryOf itemOfEntry
  dsimp only
  cases lookupA p.2 cm.itemMetadata <;> rfl

theorem buildBoth_cons_eq (env : Env) (sup : Nat → Str) (name : Str) (cm : ChanMeta)
    (hide : Bool) (cover : Str) (total : Nat) (p : Nat × Str) (rest : List (Nat × Str))
    (k : Nat) :
    buildBoth env sup name cm hide cover total (p :: rest) k =
      ((p.2, entryOf env sup cm hide total k p) ::
        (buildBoth env sup name cm hide cover total rest (stepKOf cm k p.2)).1,
       itemOfEntry env name cover cm.explicit p.1 p.2 (entryOf env sup cm hide total k p) ::
        (buildBoth env sup name cm hide cover total rest (stepKOf cm k p.2)).2.1,
       (buildBoth env sup name cm hide cover total rest (stepKOf cm k p.2)).2.2) := by
  conv_lhs => rw [buildBoth]
  rw [buildItemsStep_char]
  rfl

/-- The episode `foldl` and its recursive mirror agree. -/
theorem foldl_eq_buildBoth (env : Env) (sup : Nat → Str) (name : Str) (cm : ChanMeta)
    (hide : Bool) (cover : Str) (total : Nat) :
    ∀ (fs : List (Nat × Str)) (acc : BuildAcc),
      fs.foldl (buildItemsStep env sup name cm hide cover total) acc =
        { k := (buildBoth env sup name cm hide cover total fs acc.k).2.2,
          newItems := acc.newItems ++ (buildBoth env sup name cm hide cover total fs acc.k).1,
          feedItems := acc.feedItems ++
            (buildBoth env sup name cm hide cover total fs acc.k).2.1 }
  | [], acc => by
    simp only [List.foldl_nil, buildBoth]
    rw [List.append_nil, List.append_nil]
  | p :: rest, acc => by
    rw [List.foldl_cons,
      foldl_eq_buildBoth env sup name cm hide cover total rest
        (buildItemsStep env sup name cm hide cover total acc p),
      buildItemsStep_char, buildBoth_cons_eq]
    dsimp only
    simp [List.append_assoc]

theorem chanAfter_items_eq (env : Env) (sup : Nat → Str) (md : RootMeta) (name : Str)
    (st : FolderState) (k0 : Nat) (cm : ChanMeta) :
    (chanAfter env sup md name st k0 cm).itemMetadata =
      (buildBoth env sup name (cm2Of md name st cm) (folderDh md name st).2
        (coverStep env md name st).2.2 (folderMp3s st).length
        (folderMp3s st).enum (k0 + 1)).1 := by
  unfold chanAfter cm2Of
  dsimp only
  rw [foldl_eq_buildBoth]
  rfl

theorem feedModelOf_items_eq (env : Env) (sup : Nat → Str) (md : RootMeta) (name : Str)
    (st : FolderState) (k0 : Nat) (cm : ChanMeta) :
    (feedModelOf env sup md name st k0 cm).items =
      (buildBoth env sup name (cm2Of md name st cm) (folderDh md name st).2
        (coverStep env md name st).2.2 (folderMp3s st).length
        (folderMp3s st).enum (k0 + 1)).2.1 := by
  unfold feedModelOf
  dsimp only
  rw [foldl_eq_buildBoth]
  rfl

theorem chanAfter_fields (env : Env) (sup : Nat → Str) (md : RootMeta) (name : Str)
    (st : FolderState) (k0 : Nat) (cm : ChanMeta) :
    (chanAfter env sup md name st k0 cm).title = strippedTitle md.prefixPriority name ∧
    (chanAfter env sup md name st k0 cm).description = (folderDh md name st).1 ∧
    (chanAfter env sup md name st k0 cm).site_url = cm.site_url ∧
    (chanAfter env sup md name st k0 cm).categories =
      md.categories ++ matchedPrefs md.prefixPriority name ∧
    (chanAfter env sup md name st k0 cm).explicit = cm.explicit ∧
    (chanAfter env sup md name st k0 cm).guid = cm.guid ∧
    (chanAfter env sup md name st k0 cm).pubDate = cm.pubDate := by
  unfold chanAfter
  dsimp only
  exact ⟨rfl, rfl, rfl, rfl, rfl, rfl, rfl⟩

/-- Running the episode loop a second time, with a channel record holding
the first run's entries under every processed filename, rebuilds exactly the
same entries and feed items: the recomputed fields agree, and guid/duration
are copied from the first run's entries. -/
theorem buildBoth_fix (env : Env) (sup1 sup2 : Nat → Str) (name : Str)
    (cmA cmB : ChanMeta) (hide : Bool) (cover : Str) (total : Nat)
    (hpub : cmB.pubDate = cmA.pubDate) (hexp : cmB.explicit = cmA.explicit) :
    ∀ (fs : List (Nat × Str)) (k1 k2 : Nat),
      (fs.map Prod.snd).Nodup →
      (∀ p ∈ fs, lookupA p.2 cmB.itemMetadata =
        lookupA p.2 (buildBoth env sup1 name cmA hide cover total fs k1).1) →
      (buildBoth env sup2 name cmB hide cover total fs k2).1 =
        (buildBoth env sup1 name cmA hide cover total fs k1).1 ∧
      (buildBoth env sup2 name cmB hide cover total fs k2).2.1 =
        (buildBoth env sup1 name cmA hide cover total fs k1).2.1
  | [], k1, k2, _, _ => ⟨rfl, rfl⟩
  | p :: rest, k1, k2, hnd, hlk => by
    have hconsA := buildBoth_cons_eq env sup1 name cmA hide cover total p rest k1
    have hconsB := buildBoth_cons_eq env sup2 name cmB hide cover total p rest k2
    have hnd1 : (p.2 :: rest.map Prod.snd).Nodup := by
      rw [List.map_cons] at hnd; exact hnd
    have hnd0 := List.nodup_cons.mp hnd1
    have hpnot : p.2 ∉ rest.map Prod.snd := hnd0.1
    have hnd2 : (rest.map Prod.snd).Nodup := hnd0.2
    have hheadlk : lookupA p.2 cmB.itemMetadata =
        some (entryOf env sup1 cmA hide total k1 p) := by
      have h := hlk p (List.mem_cons_self p rest)
      rw [hconsA] at h
      simpa [lookupA] using h
    have hent : entryOf env sup2 cmB hide total k2 p = entryOf env sup1 cmA hide total k1 p := by
      have hg := entryOf_prior env sup2 cmB hide total k2 p _ hheadlk
      apply epMetaExt
      · rw [entryOf_title, entryOf_title]
      · rw [hg.1]
      · rw [entryOf_date, entryOf_date, hpub]
      · rw [hg.2]
      · rw [entryOf_hide, entryOf_hide]
    have hlk2 : ∀ q ∈ rest, lookupA q.2 cmB.itemMetadata =
        lookupA q.2 (buildBoth env sup1 name cmA hide cover total rest
          (stepKOf cmA k1 p.2)).1 := by
      intro q hq
      have h := hlk q (List.mem_cons_of_mem p hq)
      rw [hconsA] at h
      have hne : p.2 ≠ q.2 := by
        intro he
        exact hpnot (he ▸ List.mem_map_of_mem Prod.snd hq)
      rw [h]
      simp [lookupA, hne]
    have ih := buildBoth_fix env sup1 sup2 name cmA cmB hide cover total hpub hexp rest
      (stepKOf cmA k1 p.2) (stepKOf cmB k2 p.2) hnd2 hlk2
    rw [hconsA, hconsB]
    dsimp only
    rw [hent, ih.1, ih.2, hexp]
    exact ⟨rfl, rfl⟩


/-! ### The volatile lastBuildDate line and the rendered line inventory -/

theorem mismatchAt_append : ∀ (a b x y : Str), mismatchAt a b = true → a ++ x ≠ b ++ y
  | [], b, x, y, h => by cases b <;> simp [mismatchAt] at h
  | a :: as, [], x, y, h => by simp [mismatchAt] at h
  | a :: as, b :: bs, x, y, h => by
    unfold mismatchAt at h
    by_cases hab : a = b
    · rw [if_pos hab] at h
      intro he
      simp only [List.cons_append, List.cons.injEq] at he
      exact mismatchAt_append as bs x y h he.2
    · intro he
      simp only [List.cons_append, List.cons.injEq] at he
      exact hab he.1

theorem startsWith_cons_false (c : Char) (cs : Str) (d : Char) (ds : Str) (h : c ≠ d) :
    startsWithL (c :: cs) (d :: ds) = false := by
  unfold startsWithL
  simp [h]

theorem startsWith_mismatch_append : ∀ (a b x : Str), mismatchAt a b = true →
    startsWithL (a ++ x) b = false
  | [], b, x, h => by cases b <;> simp [mismatchAt] at h
  | a :: as, [], x, h => by simp [mismatchAt] at h
  | a :: as, b :: bs, x, h => by
    unfold mismatchAt at h
    rw [List.cons_append]
    by_cases hab : a = b
    · rw [if_pos hab] at h
      unfold startsWithL
      rw [startsWith_mismatch_append as bs x h]
      simp
    · exact startsWith_cons_false _ _ _ _ hab

theorem startsWith_same_append : ∀ (a b c : Str),
    startsWithL (a ++ b) (a ++ c) = startsWithL b c
  | [], b, c => rfl
  | x :: as, b, c => by
    rw [List.cons_append, List.cons_append]
    show (decide (x = x) && startsWithL (as ++ b) (as ++ c)) = startsWithL b c
    rw [startsWith_same_append as b c]
    simp

theorem includes_of_startsWith : ∀ (s t : Str), startsWithL s t = true → includesL s t = true
  | [], t, h => by
    cases t with
    | nil => rfl
    | cons a as => simp [startsWithL] at h
  | c :: cs, t, h => by
    unfold includesL
    simp [h]

/-- The model marker, as a head character plus a tail string. -/
theorem lbMarker_cons : lbMarker = '<' :: str "lastBuildDate>" := by decide

/-- Scanning past a character that is not `<` cannot start a marker match. -/
theorem includes_cons_ne (c : Char) (cs : Str) (hc : c ≠ '<') :
    includesL (c :: cs) lbMarker = includesL cs lbMarker := by
  have h1 : includesL (c :: cs) lbMarker =
      (startsWithL (c :: cs) lbMarker || includesL cs lbMarker) := rfl
  rw [h1, lbMarker_cons, startsWith_cons_false c cs '<' _ hc, Bool.false_or]

/-- Scanning past a `<` whose continuation mismatches the marker tail. -/
theorem includes_cons_lt_mismatch (cs : Str)
    (h : startsWithL cs (str "lastBuildDate>") = false) :
    includesL ('<' :: cs) lbMarker = includesL cs lbMarker := by
  have h1 : includesL ('<' :: cs) lbMarker =
      (startsWithL ('<' :: cs) lbMarker || includesL cs lbMarker) := rfl
  have h2 : startsWithL ('<' :: cs) lbMarker = false := by
    rw [lbMarker_cons]
    have h3 : startsWithL ('<' :: cs) ('<' :: str "lastBuildDate>") =
        (decide (('<' : Char) = '<') && startsWithL cs (str "lastBuildDate>")) := rfl
    rw [h3, h]
    simp
  rw [h1, h2, Bool.false_or]

/-- Scanning past a whole `<`-free span. -/
theorem includes_skip_lt : ∀ (w rest : Str), (∀ c ∈ w, c ≠ '<') →
    includesL (w ++ rest) lbMarker = includesL rest lbMarker
  | [], rest, _ => rfl
  | c :: w, rest, h => by
    rw [List.cons_append,
      includes_cons_ne c (w ++ rest) (h c (List.mem_cons_self c w)),
      includes_skip_lt w rest (fun d hd => h d (List.mem_cons_of_mem c hd))]

theorem escL_no_lt (v : Str) : ∀ c ∈ escL v, c ≠ '<' := by
  intro c hc
  obtain ⟨d, _, rfl⟩ := List.mem_map.mp hc
  by_cases h1 : d = '\n'
  · rw [if_pos h1]; decide
  · by_cases h2 : d = '<'
    · rw [if_neg h1, if_pos h2]; decide
    · rw [if_neg h1, if_neg h2]; exact h2

theorem escL_no_nl (v : Str) : ∀ c ∈ escL v, c ≠ '\n' := by
  intro c hc
  obtain ⟨d, _, rfl⟩ := List.mem_map.mp hc
  by_cases h1 : d = '\n'
  · rw [if_pos h1]; decide
  · by_cases h2 : d = '<'
    · rw [if_neg h1, if_pos h2]; decide
    · rw [if_neg h1, if_neg h2]; exact h1

/-- A rendered line in right-nested cons/append normal form. -/
theorem tagLine_eq (t v : Str) :
    tagLine t v = '<' :: (t ++ ('>' :: (escL v ++ ('<' :: ('/' :: (t ++ ['>'])))))) := by
  unfold tagLine
  simp [List.append_assoc]

theorem tagLine_ne_nil (t v : Str) : tagLine t v ≠ [] := by
  rw [tagLine_eq]
  simp

theorem mem_tagLine (t v : Str) (c : Char) (hc : c ∈ tagLine t v) :
    c = '<' ∨ c = '>' ∨ c = '/' ∨ c ∈ t ∨ c ∈ escL v := by
  rw [tagLine_eq] at hc
  simp only [List.mem_cons, List.mem_append, List.mem_singleton] at hc
  tauto

theorem tagLine_no_nl (t v : Str) (ht : ∀ c ∈ t, c ≠ '\n') : ∀ c ∈ tagLine t v, c ≠ '\n' := by
  intro c hc
  rcases mem_tagLine t v c hc with rfl | rfl | rfl | h | h
  · decide
  · decide
  · decide
  · exact ht c h
  · exact escL_no_nl v c h

/-- Two rendered lines with tags that mismatch are distinct lines. -/
theorem tagLine_ne_of_mismatch (t1 t2 v w : Str) (h : mismatchAt t1 t2 = true) :
    tagLine t1 v ≠ tagLine t2 w := by
  rw [tagLine_eq, tagLine_eq]
  intro he
  simp only [List.cons.injEq] at he
  exact mismatchAt_append t1 t2 _ _ h he.2

/-- Every `lastBuildDate` line contains the marker. -/
theorem lbLine_has_marker (v : Str) :
    includesL (tagLine (str "lastBuildDate") v) lbMarker = true := by
  rw [tagLine_eq]
  apply includes_of_startsWith
  rw [lbMarker_cons]
  unfold startsWithL
  have hsplit : str "lastBuildDate>" = str "lastBuildDate" ++ ['>'] := by decide
  rw [hsplit, startsWith_same_append]
  simp [startsWithL]

/-- A rendered line whose tag is `<`-free and mismatches `lastBuildDate>`
cannot contain the marker. -/
theorem rendered_line_marker_free (t v : Str)
    (hm : mismatchAt t (str "lastBuildDate>") = true)
    (ht : ∀ c ∈ t, c ≠ '<') :
    includesL (tagLine t v) lbMarker = false := by
  have hslash : startsWithL ('/' :: (t ++ ['>'])) (str "lastBuildDate>") = false := by
    have hl : str "lastBuildDate>" = 'l' :: str "astBuildDate>" := by decide
    rw [hl]
    exact startsWith_cons_false _ _ _ _ (by decide)
  rw [tagLine_eq,
    includes_cons_lt_mismatch _ (startsWith_mismatch_append t _ _ hm),
    includes_skip_lt t _ ht,
    includes_cons_ne '>' _ (by decide),
    includes_skip_lt (escL v) _ (escL_no_lt v),
    includes_cons_lt_mismatch _ hslash,
    includes_cons_ne '/' _ (by decide),
    includes_skip_lt t _ ht,
    includes_cons_ne '>' _ (by decide)]
  decide

/-! ### Splitting is the inverse of joining for newline-free lines -/

theorem splitOnChar_no_sep (sep : Char) : ∀ (s : Str), (∀ c ∈ s, c ≠ sep) →
    splitOnChar sep s = [s]
  | [], _ => rfl
  | c :: cs, h => by
    conv_lhs => rw [splitOnChar]
    rw [if_neg (h c (List.mem_cons_self c cs)),
      splitOnChar_no_sep sep cs (fun d hd => h d (List.mem_cons_of_mem c hd))]

theorem splitOnChar_append_sep (sep : Char) : ∀ (x rest : Str), (∀ c ∈ x, c ≠ sep) →
    splitOnChar sep (x ++ sep :: rest) = x :: splitOnChar sep rest
  | [], rest, _ => by
    simp only [List.nil_append]
    conv_lhs => rw [splitOnChar]
    rw [if_pos rfl]
  | c :: x, rest, h => by
    rw [List.cons_append]
    conv_lhs => rw [splitOnChar]
    rw [if_neg (h c (List.mem_cons_self c x)),
      splitOnChar_append_sep sep x rest (fun d hd => h d (List.mem_cons_of_mem c hd))]

theorem splitLines_joinLines : ∀ (ls : List Str), ls ≠ [] →
    (∀ l ∈ ls, ∀ c ∈ l, c ≠ '\n') → splitLines (joinLines ls) = ls
  | [], h, _ => absurd rfl h
  | [x], _, hnl => by
    show splitOnChar '\n' (joinWith ['\n'] [x]) = [x]
    rw [show joinWith ['\n'] [x] = x from rfl]
    exact splitOnChar_no_sep '\n' x (hnl x (List.mem_cons_self x []))
  | x :: y :: ys, _, hnl => by
    show splitOnChar '\n' (joinWith ['\n'] (x :: y :: ys)) = x :: y :: ys
    rw [show joinWith ['\n'] (x :: y :: ys) = x ++ '\n' :: joinWith ['\n'] (y :: ys) from by
      conv_lhs => rw [joinWith]
      simp [List.append_assoc]]
    rw [splitOnChar_append_sep '\n' x _ (hnl x (List.mem_cons_self _ _))]
    have ih := splitLines_joinLines (y :: ys) (by simp)
      (fun l hl => hnl l (List.mem_cons_of_mem x hl))
    show x :: splitOnChar '\n' (joinWith ['\n'] (y :: ys)) = x :: y :: ys
    rw [show splitOnChar '\n' (joinWith ['\n'] (y :: ys)) = y :: ys from ih]

theorem joinWith_cons_ne_nil (sep x : Str) (rest : List Str) (hx : x ≠ []) :
    joinWith sep (x :: rest) ≠ [] := by
  cases rest with
  | nil => exact hx
  | cons y ys =>
    unfold joinWith
    intro h
    exact hx (List.append_eq_nil.mp (List.append_eq_nil.mp h).1).1


/-! ### The diff of two renders of the same feed model -/

theorem searchIdx_none (t : Str) : ∀ (l : List Str) (b : Nat),
    t ∉ l.take b → searchIdx t l b = none
  | l, 0, _ => by cases l <;> rfl
  | [], b + 1, _ => rfl
  | x :: xs, b + 1, h => by
    rw [List.take_succ_cons] at h
    conv_lhs => rw [searchIdx]
    rw [if_neg (fun he => h (by rw [← he]; exact List.mem_cons_self x _)),
      searchIdx_none t xs b (fun hm => h (List.mem_cons_of_mem x hm))]
    rfl

/-- The diff of two line lists that agree except for one middle line, not
repeated within look-ahead distance: empty when the middle lines agree, the
single changed pair otherwise. -/
theorem diffF_middle : ∀ (P : List Str) (a b : Str) (Q : List Str) (fuel : Nat),
    (P ++ a :: Q).length + (P ++ b :: Q).length ≤ fuel →
    a ∉ Q.take lookAheadLimit → b ∉ Q.take lookAheadLimit →
    diffF fuel (P ++ a :: Q) (P ++ b :: Q) = if a = b then [] else [⟨a, b⟩]
  | [], a, b, Q, 0, hf, _, _ => by simp at hf
  | [], a, b, Q, fuel + 1, hf, ha, hb => by
    simp only [List.nil_append]
    by_cases hab : a = b
    · subst hab
      rw [if_pos rfl]
      conv_lhs => rw [diffF]
      rw [if_pos rfl]
      exact diffF_self fuel Q
    · rw [if_neg hab]
      conv_lhs => rw [diffF]
      rw [if_neg hab, searchIdx_none a Q lookAheadLimit ha,
        searchIdx_none b Q lookAheadLimit hb]
      rw [diffF_self]
  | x :: P, a, b, Q, 0, hf, _, _ => by simp at hf
  | x :: P, a, b, Q, fuel + 1, hf, ha, hb => by
    simp only [List.cons_append]
    conv_lhs => rw [diffF]
    rw [if_pos rfl]
    refine diffF_middle P a b Q fuel ?_ ha hb
    simp only [List.cons_append, List.length_cons] at hf
    omega

theorem ignoredChange_iff (c : Change) :
    ignoredChange c = true ↔
      (includesL c.oldL lbMarker = true ∧ includesL c.newL lbMarker = true) := by
  unfold ignoredChange ignoreChangedLinesIncluding
  simp [List.any_cons, List.any_nil, Bool.and_eq_true, lbMarker]

/-- When every pair of the diff is matched by the ignore rule, the two line
lists agree pointwise, with the marker present on both sides of every
position where they differ. -/
theorem diffF_allIgn : ∀ (fuel : Nat) (X Y : List Str),
    X.length + Y.length ≤ fuel →
    (∀ c ∈ diffF fuel X Y, ignoredChange c = true) →
    List.Forall₂ (fun a b => a = b ∨
      (includesL a lbMarker = true ∧ includesL b lbMarker = true)) X Y
  | 0, X, Y, hf, _ => by
    have hx : X = [] := List.length_eq_zero.mp (by omega)
    have hy : Y = [] := List.length_eq_zero.mp (by omega)
    subst hx; subst hy
    exact List.Forall₂.nil
  | _ + 1, [], [], _, _ => List.Forall₂.nil
  | fuel + 1, [], n :: ns, hf, hig => by
    have h := hig ⟨[], n⟩ (by
      rw [show diffF (fuel + 1) [] (n :: ns) = ⟨[], n⟩ :: diffF fuel [] ns from rfl]
      exact List.mem_cons_self _ _)
    rw [ignoredChange_iff] at h
    have h1 : includesL ([] : Str) lbMarker = true := h.1
    exact absurd h1 (by decide)
  | fuel + 1, o :: os, [], hf, hig => by
    have h := hig ⟨o, []⟩ (by
      rw [show diffF (fuel + 1) (o :: os) [] = ⟨o, []⟩ :: diffF fuel os [] from rfl]
      exact List.mem_cons_self _ _)
    rw [ignoredChange_iff] at h
    have h1 : includesL ([] : Str) lbMarker = true := h.2
    exact absurd h1 (by decide)
  | fuel + 1, o :: os, n :: ns, hf, hig => by
    by_cases hon : o = n
    · subst hon
      have hd : diffF (fuel + 1) (o :: os) (o :: ns) = diffF fuel os ns := by
        conv_lhs => rw [diffF]
        rw [if_pos rfl]
      refine List.Forall₂.cons (Or.inl rfl)
        (diffF_allIgn fuel os ns (by simp only [List.length_cons] at hf; omega) ?_)
      intro c hc
      exact hig c (by rw [hd]; exact hc)
    · cases hs1 : searchIdx o ns lookAheadLimit with
      | some k =>
        have hd : diffF (fuel + 1) (o :: os) (n :: ns) =
            ((n :: ns.take k).map fun x => (⟨[], x⟩ : Change)) ++
              diffF fuel (o :: os) (ns.drop k) := by
          conv_lhs => rw [diffF]
          rw [if_neg hon, hs1]
        have h := hig ⟨[], n⟩ (by
          rw [hd, List.map_cons]
          exact List.mem_append_left _ (List.mem_cons_self _ _))
        rw [ignoredChange_iff] at h
        have h1 : includesL ([] : Str) lbMarker = true := h.1
        exact absurd h1 (by decide)
      | none =>
        cases hs2 : searchIdx n os lookAheadLimit with
        | some k =>
          have hd : diffF (fuel + 1) (o :: os) (n :: ns) =
              ((o :: os.take k).map fun x => (⟨x, []⟩ : Change)) ++
                diffF fuel (os.drop k) (n :: ns) := by
            conv_lhs => rw [diffF]
            rw [if_neg hon, hs1, hs2]
          have h := hig ⟨o, []⟩ (by
            rw [hd, List.map_cons]
            exact List.mem_append_left _ (List.mem_cons_self _ _))
          rw [ignoredChange_iff] at h
          have h1 : includesL ([] : Str) lbMarker = true := h.2
          exact absurd h1 (by decide)
        | none =>
          have hd : diffF (fuel + 1) (o :: os) (n :: ns) =
              ⟨o, n⟩ :: diffF fuel os ns := by
            conv_lhs => rw [diffF]
            rw [if_neg hon, hs1, hs2]
          have hh := hig ⟨o, n⟩ (by rw [hd]; exact List.mem_cons_self _ _)
          rw [ignoredChange_iff] at hh
          refine List.Forall₂.cons (Or.inr hh)
            (diffF_allIgn fuel os ns (by simp only [List.length_cons] at hf; omega) ?_)
          intro c hc
          exact hig c (by rw [hd]; exact List.mem_cons_of_mem _ hc)

theorem forall2_append_cons (R : Str → Str → Prop) : ∀ (P X : List Str) (b : Str) (Q : List Str),
    List.Forall₂ R X (P ++ b :: Q) →
    ∃ X1 x X2, X = X1 ++ x :: X2 ∧ List.Forall₂ R X1 P ∧ R x b ∧ List.Forall₂ R X2 Q
  | [], X, b, Q, h => by
    rw [List.nil_append] at h
    cases h with
    | cons hh ht => exact ⟨[], _, _, rfl, List.Forall₂.nil, hh, ht⟩
  | p :: P, X, b, Q, h => by
    rw [List.cons_append] at h
    cases h with
    | cons hh ht =>
      obtain ⟨X1, x, X2, heq, h1, h2, h3⟩ := forall2_append_cons R P _ b Q ht
      exact ⟨_ :: X1, x, X2, by rw [heq, List.cons_append],
        List.Forall₂.cons hh h1, h2, h3⟩

theorem forall2_markerfree_eq : ∀ (X P : List Str),
    List.Forall₂ (fun a b => a = b ∨
      (includesL a lbMarker = true ∧ includesL b lbMarker = true)) X P →
    (∀ l ∈ P, includesL l lbMarker = false) → X = P
  | [], [], _, _ => rfl
  | [], p :: P, h, _ => nomatch h
  | x :: X, [], h, _ => nomatch h
  | x :: X, p :: P, h, hfree => by
    cases h with
    | cons hh ht =>
      have hx : x = p := by
        rcases hh with heq | ⟨h1, h2⟩
        · exact heq
        · rw [hfree p (List.mem_cons_self p P)] at h2
          exact absurd h2 (by simp)
      rw [hx, forall2_markerfree_eq X P ht (fun l hl => hfree l (List.mem_cons_of_mem p hl))]

/-! ### The rendered line inventory -/

theorem channelHead_shape (M : FeedModel) : ∀ l ∈ channelHead M, ∃ t v, l = tagLine t v ∧
    t ∈ [str "title", str "description", str "feedUrl", str "link", str "image",
      str "category", str "explicit", str "guid", str "pubDate"] := by
  intro l hl
  unfold channelHead at hl
  rcases List.mem_append.mp hl with h | h
  · rcases List.mem_append.mp h with h2 | h2
    · simp only [List.mem_cons, List.not_mem_nil, or_false] at h2
      rcases h2 with rfl | rfl | rfl | rfl | rfl
      · exact ⟨_, _, rfl, by decide⟩
      · exact ⟨_, _, rfl, by decide⟩
      · exact ⟨_, _, rfl, by decide⟩
      · exact ⟨_, _, rfl, by decide⟩
      · exact ⟨_, _, rfl, by decide⟩
    · obtain ⟨c, _, rfl⟩ := List.mem_map.mp h2
      exact ⟨_, _, rfl, by decide⟩
  · simp only [List.mem_cons, List.not_mem_nil, or_false] at h
    rcases h with rfl | rfl | rfl
    · exact ⟨_, _, rfl, by decide⟩
    · exact ⟨_, _, rfl, by decide⟩
    · exact ⟨_, _, rfl, by decide⟩

theorem itemLines_shape (it : FeedItem) : ∀ l ∈ itemLines it, ∃ t v, l = tagLine t v ∧
    t ∈ [str "title", str "url", str "size", str "guid", str "description", str "date",
      str "duration", str "image", str "explicit", str "hideDate"] := by
  intro l hl
  unfold itemLines at hl
  simp only [List.mem_cons, List.not_mem_nil, or_false] at hl
  rcases hl with rfl | rfl | rfl | rfl | rfl | rfl | rfl | rfl | rfl | rfl <;>
    exact ⟨_, _, rfl, by decide⟩

theorem channelHead_marker_free (M : FeedModel) :
    ∀ l ∈ channelHead M, includesL l lbMarker = false := by
  intro l hl
  obtain ⟨t, v, rfl, htag⟩ := channelHead_shape M l hl
  simp only [List.mem_cons, List.not_mem_nil, or_false] at htag
  rcases htag with rfl | rfl | rfl | rfl | rfl | rfl | rfl | rfl | rfl <;>
    exact rendered_line_marker_free _ _ (by decide) (by decide)

theorem tailLines_marker_free (items : List FeedItem) :
    ∀ l ∈ items.flatMap itemLines, includesL l lbMarker = false := by
  intro l hl
  obtain ⟨it, _, hmem⟩ := List.mem_flatMap.mp hl
  obtain ⟨t, v, rfl, htag⟩ := itemLines_shape it l hmem
  simp only [List.mem_cons, List.not_mem_nil, or_false] at htag
  rcases htag with rfl | rfl | rfl | rfl | rfl | rfl | rfl | rfl | rfl | rfl <;>
    exact rendered_line_marker_free _ _ (by decide) (by decide)

theorem renderLines_no_nl (M : FeedModel) (now : Int) :
    ∀ l ∈ renderFeedLines M now, ∀ c ∈ l, c ≠ '\n' := by
  intro l hl
  unfold renderFeedLines at hl
  rcases List.mem_append.mp hl with h | h
  · rcases List.mem_append.mp h with h2 | h2
    · obtain ⟨t, v, rfl, htag⟩ := channelHead_shape M l h2
      refine tagLine_no_nl t v ?_
      simp only [List.mem_cons, List.not_mem_nil, or_false] at htag
      rcases htag with rfl | rfl | rfl | rfl | rfl | rfl | rfl | rfl | rfl <;> decide
    · simp only [List.mem_singleton] at h2
      subst h2
      exact tagLine_no_nl _ _ (by decide)
  · obtain ⟨it, _, hmem⟩ := List.mem_flatMap.mp h
    obtain ⟨t, v, rfl, htag⟩ := itemLines_shape it l hmem
    refine tagLine_no_nl t v ?_
    simp only [List.mem_cons, List.not_mem_nil, or_false] at htag
    rcases htag with rfl | rfl | rfl | rfl | rfl | rfl | rfl | rfl | rfl | rfl <;> decide

theorem renderFeedLines_decomp (M : FeedModel) (now : Int) :
    renderFeedLines M now =
      channelHead M ++ tagLine (str "lastBuildDate") (isoStr now) :: M.items.flatMap itemLines := by
  unfold renderFeedLines
  simp [List.append_assoc]

theorem renderFeedLines_ne_nil (M : FeedModel) (now : Int) : renderFeedLines M now ≠ [] := by
  rw [renderFeedLines_decomp]
  intro h
  rcases List.append_eq_nil.mp h with ⟨_, h2⟩
  exact List.cons_ne_nil _ _ h2

theorem splitLines_renderFeed (M : FeedModel) (now : Int) :
    splitLines (renderFeed M now) = renderFeedLines M now :=
  splitLines_joinLines _ (renderFeedLines_ne_nil M now) (renderLines_no_nl M now)

theorem renderFeed_ne_nil (M : FeedModel) (now : Int) : renderFeed M now ≠ [] := by
  have hd : ∃ rest, renderFeedLines M now = tagLine (str "title") M.title :: rest :=
    ⟨_, rfl⟩
  obtain ⟨rest, hr⟩ := hd
  unfold renderFeed
  rw [hr]
  exact joinWith_cons_ne_nil _ _ _ (tagLine_ne_nil _ _)

theorem lbLine_not_in_tail (M : FeedModel) (x : Int) :
    tagLine (str "lastBuildDate") (isoStr x) ∉
      (M.items.flatMap itemLines).take lookAheadLimit := by
  intro hmem
  have h1 := tailLines_marker_free M.items _ (List.take_subset _ _ hmem)
  rw [lbLine_has_marker] at h1
  simp at h1

/-! ### Re-rendering an unchanged feed never writes -/

/-- Re-rendering the same feed model over an up-to-date file changes only
the `lastBuildDate` line, which the ignore rule suppresses. -/
theorem feed_decision_rerender (M : FeedModel) (now1 now2 : Int) :
    writeFileIfChangedDecision (some (renderFeed M now1)) (renderFeed M now2) = false := by
  unfold writeFileIfChangedDecision
  by_cases heq : some (renderFeed M now1) = some (renderFeed M now2)
  · rw [if_pos heq]
  · rw [if_neg heq]
    dsimp only
    simp only [Option.getD_some]
    have hlines : getChangedLines (renderFeed M now1) (renderFeed M now2) =
        if tagLine (str "lastBuildDate") (isoStr now1) =
            tagLine (str "lastBuildDate") (isoStr now2) then []
        else [⟨tagLine (str "lastBuildDate") (isoStr now1),
          tagLine (str "lastBuildDate") (isoStr now2)⟩] := by
      unfold getChangedLines getChangedLinesL
      rw [splitLines_renderFeed, splitLines_renderFeed,
        renderFeedLines_decomp M now1, renderFeedLines_decomp M now2]
      exact diffF_middle (channelHead M) _ _ _ _ (le_refl _)
        (lbLine_not_in_tail M now1) (lbLine_not_in_tail M now2)
    simp only [hlines]
    by_cases hll : tagLine (str "lastBuildDate") (isoStr now1) =
        tagLine (str "lastBuildDate") (isoStr now2)
    · rw [if_pos hll]
      simp
    · rw [if_neg hll]
      have hig : ignoredChange ⟨tagLine (str "lastBuildDate") (isoStr now1),
          tagLine (str "lastBuildDate") (isoStr now2)⟩ = true := by
        rw [ignoredChange_iff]
        exact ⟨lbLine_has_marker _, lbLine_has_marker _⟩
      simp [List.filter_cons, hig]

/-- If one render of a model was not written over the previous content
(byte-identical or suppressed by the ignore rule), a render of the same
model at any other time is not written either. -/
theorem feed_decision_second (f0 : Option Str) (M : FeedModel) (now1 now2 : Int)
    (h : writeFileIfChangedDecision f0 (renderFeed M now1) = false) :
    writeFileIfChangedDecision f0 (renderFeed M now2) = false := by
  cases f0 with
  | none =>
    rw [writeDecision_none _ (renderFeed_ne_nil M now1)] at h
    exact absurd h (by decide)
  | some old =>
    by_cases hoc : old = renderFeed M now1
    · rw [hoc]
      exact feed_decision_rerender M now1 now2
    · unfold writeFileIfChangedDecision at h
      rw [if_neg (fun hh => hoc (Option.some_inj.mp hh))] at h
      dsimp only at h
      simp only [Option.getD_some, decide_eq_false_iff_not, ne_eq, not_not] at h
      have hall : ∀ c ∈ getChangedLines old (renderFeed M now1), ignoredChange c = true := by
        intro c hc
        have h2 := List.filter_eq_nil_iff.mp h c hc
        cases higv : ignoredChange c with
        | true => rfl
        | false =>
          exact absurd (by show (!ignoredChange c) = true; rw [higv]; rfl) h2
      have hfor := diffF_allIgn _ (splitLines old) (splitLines (renderFeed M now1))
        (le_refl _) hall
      rw [splitLines_renderFeed, renderFeedLines_decomp] at hfor
      obtain ⟨X1, x, X2, hXeq, hF1, hFx, hF2⟩ :=
        forall2_append_cons _ (channelHead M) _ _ _ hfor
      have hX1 : X1 = channelHead M :=
        forall2_markerfree_eq X1 _ hF1 (channelHead_marker_free M)
      have hX2 : X2 = M.items.flatMap itemLines :=
        forall2_markerfree_eq X2 _ hF2 (tailLines_marker_free M.items)
      have hxmark : includesL x lbMarker = true := by
        rcases hFx with rfl | ⟨h1, _⟩
        · exact lbLine_has_marker _
        · exact h1
      have hax : x ∉ (M.items.flatMap itemLines).take lookAheadLimit := by
        intro hmem
        have h1 := tailLines_marker_free M.items _ (List.take_subset _ _ hmem)
        rw [hxmark] at h1
        simp at h1
      unfold writeFileIfChangedDecision
      by_cases h2 : some old = some (renderFeed M now2)
      · rw [if_pos h2]
      · rw [if_neg h2]
        dsimp only
        simp only [Option.getD_some]
        have hlines2 : getChangedLines old (renderFeed M now2) =
            if x = tagLine (str "lastBuildDate") (isoStr now2) then []
            else [⟨x, tagLine (str "lastBuildDate") (isoStr now2)⟩] := by
          unfold getChangedLines getChangedLinesL
          rw [splitLines_renderFeed, renderFeedLines_decomp,
            show splitLines old = channelHead M ++ x :: M.items.flatMap itemLines from by
              rw [hXeq, hX1, hX2]]
          exact diffF_middle (channelHead M) _ _ _ _ (le_refl _) hax
            (lbLine_not_in_tail M now2)
        simp only [hlines2]
        by_cases hll : x = tagLine (str "lastBuildDate") (isoStr now2)
        · rw [if_pos hll]
          simp
        · rw [if_neg hll]
          have hig : ignoredChange ⟨x, tagLine (str "lastBuildDate") (isoStr now2)⟩ = true := by
            rw [ignoredChange_iff]
            exact ⟨hxmark, lbLine_has_marker _⟩
          simp [List.filter_cons, hig]

/-- One full statement: after any first `writeFileIfChanged` of a rendered
feed, a second render of the same model is suppressed. -/
theorem feed_run_second (f0 : Option Str) (M : FeedModel) (now1 now2 : Int) :
    writeFileIfChangedRun ((writeFileIfChangedRun f0 (renderFeed M now1)).1)
      (renderFeed M now2) = ((writeFileIfChangedRun f0 (renderFeed M now1)).1, false) := by
  unfold writeFileIfChangedRun
  by_cases h : writeFileIfChangedDecision f0 (renderFeed M now1) = true
  · simp only [h, if_true]
    simp [feed_decision_rerender M now1 now2]
  · rw [Bool.not_eq_true] at h
    simp only [h, Bool.false_eq_true, if_false]
    simp [h, feed_decision_second f0 M now1 now2 h]


/-! ### The cover rename reaches a fixpoint on single-image folders -/

theorem find?_unique (p : Str → Bool) : ∀ (l : List Str) (a : Str), a ∈ l →
    (∀ x ∈ l, p x = true → x = a) → p a = true → l.find? p = some a
  | [], a, ha, _, _ => absurd ha (List.not_mem_nil a)
  | y :: ys, a, ha, huniq, hpa => by
    cases hpy : p y with
    | true =>
      rw [List.find?_cons_of_pos _ hpy, huniq y (List.mem_cons_self y ys) hpy]
    | false =>
      rw [List.find?_cons_of_neg _ (by rw [hpy]; simp)]
      have ha2 : a ∈ ys := by
        rcases List.mem_cons.mp ha with rfl | h2
        · rw [hpa] at hpy
          exact absurd hpy (by simp)
        · exact h2
      exact find?_unique p ys a ha2 (fun x hx => huniq x (List.mem_cons_of_mem y hx)) hpa

theorem length_ge_two_of_two_mem : ∀ (l : List Str) (a b : Str), a ∈ l → b ∈ l → a ≠ b →
    2 ≤ l.length
  | [], a, b, ha, _, _ => absurd ha (List.not_mem_nil a)
  | [x], a, b, ha, hb, hne => by
    simp only [List.mem_singleton] at ha hb
    exact absurd (ha.trans hb.symm) hne
  | x :: y :: t, _, _, _, _, _ => by
    simp only [List.length_cons]
    omega

/-- On a folder with at most one image candidate, any image file equals the
found one. -/
theorem image_unique (files : List Str) (himg : imageCount files ≤ 1) (f : Str)
    (hf : f ∈ files) (hif : isImageFile f = true) :
    ∀ x ∈ files, isImageFile x = true → x = f := by
  intro x hx hix
  by_contra hne
  have hfm : f ∈ files.filter isImageFile := List.mem_filter.mpr ⟨hf, hif⟩
  have hxm : x ∈ files.filter isImageFile := List.mem_filter.mpr ⟨hx, hix⟩
  have h2 := length_ge_two_of_two_mem _ x f hxm hfm hne
  unfold imageCount at himg
  omega

/-- After one cover step on a folder with at most one image, a second cover
step on any state holding the resulting listing does nothing and reports the
same cover URL. -/
theorem coverStep_fix (env : Env) (md : RootMeta) (name : Str) (st : FolderState)
    (himg : imageCount st.files ≤ 1) (hnd : st.files.Nodup) (t : FolderState)
    (ht : t.files = (coverStep env md name st).1.files) :
    coverStep env md name t = (t, [], (coverStep env md name st).2.2) := by
  cases hfind : (readdir st.files).find? isImageFile with
  | none =>
    have hcs : coverStep env md name st = (st, [], md.coverUrl) := by
      unfold coverStep
      rw [hfind]
    rw [hcs] at ht ⊢
    unfold coverStep
    rw [ht, hfind]
  | some f =>
    have hf_img : isImageFile f = true := List.find?_some hfind
    have hf_mem : f ∈ st.files :=
      (readdir_perm st.files).mem_iff.mp (List.mem_of_find?_eq_some hfind)
    by_cases hjpg : endsWithL f (str ".jpg") = true
    · by_cases hfc : f = str "cover" ++ str ".jpg"
      · have hcs : coverStep env md name st =
            (st, [], generateUrlPath env.rootShareUrl (name ++ str "/cover" ++ str ".jpg")) := by
          unfold coverStep
          rw [hfind]
          dsimp only
          rw [if_pos hjpg, if_pos hfc]
        rw [hcs] at ht ⊢
        unfold coverStep
        rw [ht, hfind]
        dsimp only
        rw [if_pos hjpg, if_pos hfc]
      · have hcs : coverStep env md name st =
            ({ st with files := (str "cover" ++ str ".jpg") :: st.files.erase f },
             [FsWrite.renameCover name f (str "cover" ++ str ".jpg")],
             generateUrlPath env.rootShareUrl (name ++ str "/cover" ++ str ".jpg")) := by
          unfold coverStep
          rw [hfind]
          dsimp only
          rw [if_pos hjpg, if_neg hfc]
        rw [hcs] at ht ⊢
        dsimp only at ht
        have hkey : (readdir t.files).find? isImageFile =
            some (str "cover" ++ str ".jpg") := by
          apply find?_unique
          · exact (readdir_perm t.files).mem_iff.mpr
              (by rw [ht]; exact List.mem_cons_self _ _)
          · intro x hx hix
            have hx2 : x ∈ t.files := (readdir_perm t.files).mem_iff.mp hx
            rw [ht] at hx2
            rcases List.mem_cons.mp hx2 with rfl | hx3
            · rfl
            · have hx4 : x ∈ st.files := List.erase_subset _ _ hx3
              have hxf : x = f := image_unique st.files himg f hf_mem hf_img x hx4 hix
              subst hxf
              exact absurd ((List.Nodup.mem_erase_iff hnd).mp hx3).1 (by simp)
          · decide
        unfold coverStep
        rw [hkey]
        dsimp only
        rw [if_pos (by decide : endsWithL (str "cover" ++ str ".jpg") (str ".jpg") = true),
          if_pos rfl]
    · by_cases hfc : f = str "cover" ++ str ".png"
      · have hcs : coverStep env md name st =
            (st, [], generateUrlPath env.rootShareUrl (name ++ str "/cover" ++ str ".png")) := by
          unfold coverStep
          rw [hfind]
          dsimp only
          rw [if_neg hjpg, if_pos hfc]
        rw [hcs] at ht ⊢
        unfold coverStep
        rw [ht, hfind]
        dsimp only
        rw [if_neg hjpg, if_pos hfc]
      · have hcs : coverStep env md name st =
            ({ st with files := (str "cover" ++ str ".png") :: st.files.erase f },
             [FsWrite.renameCover name f (str "cover" ++ str ".png")],
             generateUrlPath env.rootShareUrl (name ++ str "/cover" ++ str ".png")) := by
          unfold coverStep
          rw [hfind]
          dsimp only
          rw [if_neg hjpg, if_neg hfc]
        rw [hcs] at ht ⊢
        dsimp only at ht
        have hkey : (readdir t.files).find? isImageFile =
            some (str "cover" ++ str ".png") := by
          apply find?_unique
          · exact (readdir_perm t.files).mem_iff.mpr
              (by rw [ht]; exact List.mem_cons_self _ _)
          · intro x hx hix
            have hx2 : x ∈ t.files := (readdir_perm t.files).mem_iff.mp hx
            rw [ht] at hx2
            rcases List.mem_cons.mp hx2 with rfl | hx3
            · rfl
            · have hx4 : x ∈ st.files := List.erase_subset _ _ hx3
              have hxf : x = f := image_unique st.files himg f hf_mem hf_img x hx4 hix
              subst hxf
              exact absurd ((List.Nodup.mem_erase_iff hnd).mp hx3).1 (by simp)
          · decide
        unfold coverStep
        rw [hkey]
        dsimp only
        rw [if_neg (by decide : ¬endsWithL (str "cover" ++ str ".png") (str ".jpg") = true),
          if_pos rfl]


/-! ### One folder run, fully characterized, and its fixpoint -/

theorem feedModelExt (a b : FeedModel) (h1 : a.title = b.title)
    (h2 : a.description = b.description) (h3 : a.feedUrl = b.feedUrl)
    (h4 : a.siteUrl = b.siteUrl) (h5 : a.coverUrl = b.coverUrl)
    (h6 : a.categories = b.categories) (h7 : a.explicit = b.explicit)
    (h8 : a.guid = b.guid) (h9 : a.pubDate = b.pubDate) (h10 : a.items = b.items) :
    a = b := by
  cases a; cases b; simp_all

theorem writeJsonChan_self (c : ChanMeta) :
    writeJsonIfChangedChan (some (.ok c)) c = (some (.ok c), false) := by
  unfold writeJsonIfChangedChan
  dsimp only
  rw [if_pos rfl]

/-- The full output of one folder run whose read-or-create step loaded `cm`
from `disk0`. -/
theorem folder_run_char (env : Env) (sup : Nat → Str) (md : RootMeta) (name : Str)
    (st : FolderState) (now : Int) (k0 : Nat) (cm : ChanMeta) (disk0 : Option SidecarFile)
    (wrote0 : Bool)
    (h : readCreateJsonChan st.sidecar (defaultChanMeta md name (sup k0) now) =
      Except.ok (cm, disk0, wrote0)) :
    generateFeedForFolder env sup md name st now k0 =
      { state := folderStateOf env sup md name st now k0 cm disk0,
        writes := folderWritesOf env sup md name st now k0 cm disk0 wrote0,
        k := folderKOf env sup md name st k0 cm,
        out := .ok (generateUrlPath env.rootShareUrl (name ++ str "/rss/feed.xml")) } := by
  unfold generateFeedForFolder
  dsimp only
  rw [(coverStep_preserves env md name st).1, h]
  dsimp only
  rw [(coverStep_preserves env md name st).2.1, (coverStep_preserves env md name st).2.2.1,
    (coverStep_preserves env md name st).2.2.2]
  rfl

/-- The full output of one folder run on a corrupt sidecar. -/
theorem folder_run_char_err (env : Env) (sup : Nat → Str) (md : RootMeta) (name : Str)
    (st : FolderState) (now : Int) (k0 : Nat)
    (h : st.sidecar = some .corrupt) :
    generateFeedForFolder env sup md name st now k0 =
      { state := (coverStep env md name st).1, writes := (coverStep env md name st).2.1,
        k := k0 + 1, out := .error () } := by
  unfold generateFeedForFolder
  dsimp only
  rw [(coverStep_preserves env md name st).1, h]
  rfl


/-- Core of the idempotence argument for one folder: after a run that loaded
channel metadata `cm`, a second run (any clock, any uuid stream, any
counter) leaves the folder state unchanged, performs no writes, and reports
the same feed URL. -/
theorem folder_run_fix_core (env : Env) (sup1 sup2 : Nat → Str) (md : RootMeta) (name : Str)
    (st : FolderState) (now1 now2 : Int) (k1 k2 : Nat) (cm : ChanMeta)
    (disk0 : Option SidecarFile) (wrote0 : Bool)
    (himg : imageCount st.files ≤ 1) (hndf : st.files.Nodup) (hndi : st.items.Nodup)
    (h1 : readCreateJsonChan st.sidecar (defaultChanMeta md name (sup1 k1) now1) =
      Except.ok (cm, disk0, wrote0)) :
    (generateFeedForFolder env sup2 md name
        (generateFeedForFolder env sup1 md name st now1 k1).state now2 k2).state =
      (generateFeedForFolder env sup1 md name st now1 k1).state ∧
    (generateFeedForFolder env sup2 md name
        (generateFeedForFolder env sup1 md name st now1 k1).state now2 k2).writes = [] ∧
    (generateFeedForFolder env sup2 md name
        (generateFeedForFolder env sup1 md name st now1 k1).state now2 k2).out =
      (generateFeedForFolder env sup1 md name st now1 k1).out := by
  have hc1 := folder_run_char env sup1 md name st now1 k1 cm disk0 wrote0 h1
  rw [hc1]
  dsimp only
  have hcov : coverStep env md name (folderStateOf env sup1 md name st now1 k1 cm disk0) =
      (folderStateOf env sup1 md name st now1 k1 cm disk0, [],
        (coverStep env md name st).2.2) :=
    coverStep_fix env md name st himg hndf _ rfl
  have hss : (folderStateOf env sup1 md name st now1 k1 cm disk0).sidecar =
      some (.ok (chanAfter env sup1 md name st k1 cm)) := writeJsonChan_fst _ _
  have hrc2 : readCreateJsonChan
      (folderStateOf env sup1 md name st now1 k1 cm disk0).sidecar
      (defaultChanMeta md name (sup2 k2) now2) =
      Except.ok (chanAfter env sup1 md name st k1 cm,
        some (.ok (chanAfter env sup1 md name st k1 cm)), false) := by
    rw [hss]
    unfold readCreateJsonChan
    dsimp only
    rw [writeJsonChan_self]
  have hc2 := folder_run_char env sup2 md name
    (folderStateOf env sup1 md name st now1 k1 cm disk0) now2 k2
    (chanAfter env sup1 md name st k1 cm)
    (some (.ok (chanAfter env sup1 md name st k1 cm))) false hrc2
  rw [hc2]
  dsimp only
  have hcm2 : cm2Of md name (folderStateOf env sup1 md name st now1 k1 cm disk0)
      (chanAfter env sup1 md name st k1 cm) = chanAfter env sup1 md name st k1 cm := rfl
  have hnodup : (((folderMp3s st).enum).map Prod.snd).Nodup := by
    rw [List.enum_map_snd]
    exact folderMp3s_nodup st hndi
  have hagree : ∀ p ∈ (folderMp3s st).enum,
      lookupA p.2 (chanAfter env sup1 md name st k1 cm).itemMetadata =
        lookupA p.2 (buildBoth env sup1 name (cm2Of md name st cm) (folderDh md name st).2
          (coverStep env md name st).2.2 (folderMp3s st).length
          (folderMp3s st).enum (k1 + 1)).1 := by
    intro p hp
    rw [chanAfter_items_eq]
  have hfix := buildBoth_fix env sup1 sup2 name (cm2Of md name st cm)
    (chanAfter env sup1 md name st k1 cm) (folderDh md name st).2
    (coverStep env md name st).2.2 (folderMp3s st).length rfl rfl
    (folderMp3s st).enum (k1 + 1) (k2 + 1) hnodup hagree
  have hitems : (chanAfter env sup2 md name
      (folderStateOf env sup1 md name st now1 k1 cm disk0) k2
      (chanAfter env sup1 md name st k1 cm)).itemMetadata =
      (chanAfter env sup1 md name st k1 cm).itemMetadata := by
    rw [chanAfter_items_eq, hcm2, hcov, chanAfter_items_eq env sup1 md name st k1 cm]
    exact hfix.1
  have hca2 : chanAfter env sup2 md name
      (folderStateOf env sup1 md name st now1 k1 cm disk0) k2
      (chanAfter env sup1 md name st k1 cm) = chanAfter env sup1 md name st k1 cm := by
    apply chanMetaExt
    · rfl
    · rfl
    · rfl
    · rfl
    · rfl
    · rfl
    · rfl
    · exact hitems
  have hfeeditems : (feedModelOf env sup2 md name
      (folderStateOf env sup1 md name st now1 k1 cm disk0) k2
      (chanAfter env sup1 md name st k1 cm)).items =
      (feedModelOf env sup1 md name st k1 cm).items := by
    rw [feedModelOf_items_eq, hcm2, hcov, feedModelOf_items_eq env sup1 md name st k1 cm]
    exact hfix.2
  have hM : feedModelOf env sup2 md name
      (folderStateOf env sup1 md name st now1 k1 cm disk0) k2
      (chanAfter env sup1 md name st k1 cm) = feedModelOf env sup1 md name st k1 cm := by
    apply feedModelExt
    · rfl
    · rfl
    · rfl
    · rfl
    · show (coverStep env md name (folderStateOf env sup1 md name st now1 k1 cm disk0)).2.2 =
        (coverStep env md name st).2.2
      rw [hcov]
    · rfl
    · rfl
    · rfl
    · rfl
    · exact hfeeditems
  have hfeed : writeFileIfChangedRun
      (folderStateOf env sup1 md name st now1 k1 cm disk0).feed
      (renderFeed (feedModelOf env sup2 md name
        (folderStateOf env sup1 md name st now1 k1 cm disk0) k2
        (chanAfter env sup1 md name st k1 cm)) now2) =
      ((folderStateOf env sup1 md name st now1 k1 cm disk0).feed, false) := by
    rw [hM]
    exact feed_run_second st.feed (feedModelOf env sup1 md name st k1 cm) now1 now2
  refine ⟨?_, ?_, rfl⟩
  · apply folderStateExt
    · show (coverStep env md name (folderStateOf env sup1 md name st now1 k1 cm disk0)).1.files =
        (folderStateOf env sup1 md name st now1 k1 cm disk0).files
      rw [hcov]
    · rfl
    · show (writeJsonIfChangedChan (writeJsonIfChangedChan
          (some (.ok (chanAfter env sup1 md name st k1 cm)))
          (cm2Of md name (folderStateOf env sup1 md name st now1 k1 cm disk0)
            (chanAfter env sup1 md name st k1 cm))).1
          (chanAfter env sup2 md name (folderStateOf env sup1 md name st now1 k1 cm disk0)
            k2 (chanAfter env sup1 md name st k1 cm))).1 =
        (folderStateOf env sup1 md name st now1 k1 cm disk0).sidecar
      simp only [hcm2, writeJsonChan_self, hca2, hss]
    · rfl
    · show (writeFileIfChangedRun
          (folderStateOf env sup1 md name st now1 k1 cm disk0).feed
          (renderFeed (feedModelOf env sup2 md name
            (folderStateOf env sup1 md name st now1 k1 cm disk0) k2
            (chanAfter env sup1 md name st k1 cm)) now2)).1 =
        (folderStateOf env sup1 md name st now1 k1 cm disk0).feed
      rw [hfeed]
  · show folderWritesOf env sup2 md name
        (folderStateOf env sup1 md name st now1 k1 cm disk0) now2 k2
        (chanAfter env sup1 md name st k1 cm)
        (some (.ok (chanAfter env sup1 md name st k1 cm))) false = []
    unfold folderWritesOf
    simp only [hcov, hcm2, writeJsonChan_self, hca2, hfeed]
    simp

/-- One folder's generation is idempotent on folders with at most one image
candidate and duplicate-free listings: the second run changes nothing,
writes nothing, and reports the same outcome. -/
theorem folder_run_fix (env : Env) (sup1 sup2 : Nat → Str) (md : RootMeta) (name : Str)
    (st : FolderState) (now1 now2 : Int) (k1 k2 : Nat)
    (himg : imageCount st.files ≤ 1) (hndf : st.files.Nodup) (hndi : st.items.Nodup) :
    (generateFeedForFolder env sup2 md name
        (generateFeedForFolder env sup1 md name st now1 k1).state now2 k2).state =
      (generateFeedForFolder env sup1 md name st now1 k1).state ∧
    (generateFeedForFolder env sup2 md name
        (generateFeedForFolder env sup1 md name st now1 k1).state now2 k2).writes = [] ∧
    (generateFeedForFolder env sup2 md name
        (generateFeedForFolder env sup1 md name st now1 k1).state now2 k2).out =
      (generateFeedForFolder env sup1 md name st now1 k1).out := by
  cases hsc : st.sidecar with
  | none =>
    refine folder_run_fix_core env sup1 sup2 md name st now1 now2 k1 k2
      (defaultChanMeta md name (sup1 k1) now1)
      (some (.ok (defaultChanMeta md name (sup1 k1) now1))) true himg hndf hndi ?_
    rw [hsc]
    rfl
  | some sf =>
    cases sf with
    | ok cm0 =>
      refine folder_run_fix_core env sup1 sup2 md name st now1 now2 k1 k2 cm0
        (some (.ok cm0)) false himg hndf hndi ?_
      rw [hsc]
      unfold readCreateJsonChan
      dsimp only
      rw [writeJsonChan_self]
    | corrupt =>
      have hc1 := folder_run_char_err env sup1 md name st now1 k1 hsc
      rw [hc1]
      dsimp only
      have hsc2 : (coverStep env md name st).1.sidecar = some .corrupt := by
        rw [(coverStep_preserves env md name st).1, hsc]
      have hc2 := folder_run_char_err env sup2 md name (coverStep env md name st).1 now2 k2 hsc2
      rw [hc2]
      dsimp only
      have hcov := coverStep_fix env md name st himg hndf (coverStep env md name st).1 rfl
      rw [hcov]
      exact ⟨rfl, rfl, rfl⟩


/-! ### The whole pass reaches a fixpoint -/

theorem processFolders_cons_err (env : Env) (sup : Nat → Str) (md : RootMeta) (now : Int)
    (name : Str) (fst : FolderState) (rest : List (Str × FolderState)) (k : Nat)
    (h : (generateFeedForFolder env sup md name fst now k).out = Except.error ()) :
    processFolders env sup md now ((name, fst) :: rest) k =
      ((name, (generateFeedForFolder env sup md name fst now k).state) :: rest,
       (generateFeedForFolder env sup md name fst now k).writes,
       (generateFeedForFolder env sup md name fst now k).k, Except.error ()) := by
  conv_lhs => rw [processFolders]
  dsimp only
  rw [h]

theorem processFolders_cons_ok (env : Env) (sup : Nat → Str) (md : RootMeta) (now : Int)
    (name : Str) (fst : FolderState) (rest : List (Str × FolderState)) (k : Nat) (url : Str)
    (h : (generateFeedForFolder env sup md name fst now k).out = Except.ok url) :
    processFolders env sup md now ((name, fst) :: rest) k =
      ((name, (generateFeedForFolder env sup md name fst now k).state) ::
        (processFolders env sup md now rest
          (generateFeedForFolder env sup md name fst now k).k).1,
       (generateFeedForFolder env sup md name fst now k).writes ++
        (processFolders env sup md now rest
          (generateFeedForFolder env sup md name fst now k).k).2.1,
       (processFolders env sup md now rest
         (generateFeedForFolder env sup md name fst now k).k).2.2.1,
       (processFolders env sup md now rest
         (generateFeedForFolder env sup md name fst now k).k).2.2.2.map
           fun urls => (folderPriority md.prefixPriority name, url) :: urls) := by
  conv_lhs => rw [processFolders]
  dsimp only
  rw [h]

/-- The folder loop is idempotent folder by folder: a second pass over the
states the first pass left behind changes no folder, performs no writes, and
collects the same outcome (the same URL pairs, or an abort at the same
folder). -/
theorem processFolders_fix (env : Env) (sup1 sup2 : Nat → Str) (md : RootMeta)
    (now1 now2 : Int) :
    ∀ (fls : List (Str × FolderState)) (k1 k2 : Nat),
      (∀ p ∈ fls, imageCount p.2.files ≤ 1 ∧ p.2.files.Nodup ∧ p.2.items.Nodup) →
      (processFolders env sup2 md now2
          (processFolders env sup1 md now1 fls k1).1 k2).1 =
        (processFolders env sup1 md now1 fls k1).1 ∧
      (processFolders env sup2 md now2
          (processFolders env sup1 md now1 fls k1).1 k2).2.1 = [] ∧
      (processFolders env sup2 md now2
          (processFolders env sup1 md now1 fls k1).1 k2).2.2.2 =
        (processFolders env sup1 md now1 fls k1).2.2.2
  | [], k1, k2, _ => ⟨rfl, rfl, rfl⟩
  | (name, fst) :: rest, k1, k2, hwf => by
    have hw := hwf (name, fst) (List.mem_cons_self _ _)
    have hfix := folder_run_fix env sup1 sup2 md name fst now1 now2 k1 k2 hw.1 hw.2.1 hw.2.2
    cases hout1 : (generateFeedForFolder env sup1 md name fst now1 k1).out with
    | error e =>
      cases e
      rw [processFolders_cons_err env sup1 md now1 name fst rest k1 hout1]
      dsimp only
      rw [processFolders_cons_err env sup2 md now2 name
        (generateFeedForFolder env sup1 md name fst now1 k1).state rest k2
        (by rw [hfix.2.2, hout1])]
      dsimp only
      exact ⟨by rw [hfix.1], hfix.2.1, rfl⟩
    | ok url =>
      have ih := processFolders_fix env sup1 sup2 md now1 now2 rest
        (generateFeedForFolder env sup1 md name fst now1 k1).k
        (generateFeedForFolder env sup2 md name
          (generateFeedForFolder env sup1 md name fst now1 k1).state now2 k2).k
        (fun p hp => hwf p (List.mem_cons_of_mem _ hp))
      rw [processFolders_cons_ok env sup1 md now1 name fst rest k1 url hout1]
      dsimp only
      rw [processFolders_cons_ok env sup2 md now2 name
        (generateFeedForFolder env sup1 md name fst now1 k1).state
        (processFolders env sup1 md now1 rest
          (generateFeedForFolder env sup1 md name fst now1 k1).k).1 k2 url
        (by rw [hfix.2.2, hout1])]
      dsimp only
      refine ⟨?_, ?_, ?_⟩
      · rw [hfix.1, ih.1]
      · rw [hfix.2.1, ih.2.1]
        rfl
      · rw [ih.2.2]

theorem writeJsonRoot_fst (d : Option RootSidecar) (v : RootMeta) :
    (writeJsonIfChangedRoot d v).1 = some (.ok v) := by
  cases d with
  | none => rfl
  | some sf =>
    cases sf with
    | corrupt => rfl
    | ok c =>
      simp only [writeJsonIfChangedRoot]
      split
      · rename_i h
        rw [h]
      · rfl

theorem writeJsonRoot_self (c : RootMeta) :
    writeJsonIfChangedRoot (some (.ok c)) c = (some (.ok c), false) := by
  unfold writeJsonIfChangedRoot
  dsimp only
  rw [if_pos rfl]

theorem readCreateJsonRoot_disk (d : Option RootSidecar) (dflt m : RootMeta)
    (rd : Option RootSidecar) (w : Bool)
    (h : readCreateJsonRoot d dflt = Except.ok (m, rd, w)) : rd = some (.ok m) := by
  cases d with
  | none =>
    unfold readCreateJsonRoot at h
    dsimp only at h
    injection h with h2
    have h3 := congrArg (fun t : RootMeta × Option RootSidecar × Bool => t.2.1) h2
    have h4 := congrArg (fun t : RootMeta × Option RootSidecar × Bool => t.1) h2
    dsimp only at h3 h4
    rw [← h3, ← h4, writeJsonRoot_fst]
  | some sf =>
    cases sf with
    | corrupt => exact absurd h (by unfold readCreateJsonRoot; simp)
    | ok c =>
      unfold readCreateJsonRoot at h
      dsimp only at h
      injection h with h2
      have h3 := congrArg (fun t : RootMeta × Option RootSidecar × Bool => t.2.1) h2
      have h4 := congrArg (fun t : RootMeta × Option RootSidecar × Bool => t.1) h2
      dsimp only at h3 h4
      rw [← h3, ← h4, writeJsonRoot_fst]


theorem generateFeeds_char_errRoot (env : Env) (sup : Nat → Str) (st : RootState)
    (now : Int) (k0 : Nat) (h : st.rootMeta = some .corrupt) :
    generateFeeds env sup st now k0 = { state := st, writes := [], k := k0 } := by
  unfold generateFeeds
  dsimp only
  rw [h]
  rfl

theorem generateFeeds_char_ok (env : Env) (sup : Nat → Str) (st : RootState) (now : Int)
    (k0 : Nat) (m : RootMeta) (rootDisk : Option RootSidecar) (wroteR : Bool)
    (urls : List (Int × Str))
    (h : readCreateJsonRoot st.rootMeta (dfltRootOf env) = Except.ok (m, rootDisk, wroteR))
    (h2 : (processFolders env sup (mdROf m) now st.folders k0).2.2.2 = Except.ok urls) :
    generateFeeds env sup st now k0 =
      { state :=
          { st with
              rootMeta := rootDisk,
              folders := (processFolders env sup (mdROf m) now st.folders k0).1,
              feedUrls := (writeFileIfChangedRun st.feedUrls (buildFeedUrlsContent urls)).1 },
        writes := (if wroteR then [FsWrite.jsonRoot m] else []) ++
          (processFolders env sup (mdROf m) now st.folders k0).2.1 ++
          (if (writeFileIfChangedRun st.feedUrls (buildFeedUrlsContent urls)).2 then
            [FsWrite.textFile (str "feed_urls.txt") (buildFeedUrlsContent urls)] else []),
        k := (processFolders env sup (mdROf m) now st.folders k0).2.2.1 } := by
  unfold mdROf at h2
  unfold dfltRootOf at h
  unfold generateFeeds
  dsimp only
  rw [h]
  dsimp only
  rw [h2]
  dsimp only
  unfold mdROf
  rfl

theorem generateFeeds_char_errFolder (env : Env) (sup : Nat → Str) (st : RootState)
    (now : Int) (k0 : Nat) (m : RootMeta) (rootDisk : Option RootSidecar) (wroteR : Bool)
    (h : readCreateJsonRoot st.rootMeta (dfltRootOf env) = Except.ok (m, rootDisk, wroteR))
    (h2 : (processFolders env sup (mdROf m) now st.folders k0).2.2.2 = Except.error ()) :
    generateFeeds env sup st now k0 =
      { state :=
          { st with
              rootMeta := rootDisk,
              folders := (processFolders env sup (mdROf m) now st.folders k0).1 },
        writes := (if wroteR then [FsWrite.jsonRoot m] else []) ++
          (processFolders env sup (mdROf m) now st.folders k0).2.1,
        k := (processFolders env sup (mdROf m) now st.folders k0).2.2.1 } := by
  unfold mdROf at h2
  unfold dfltRootOf at h
  unfold generateFeeds
  dsimp only
  rw [h]
  dsimp only
  rw [h2]
  dsimp only
  unfold mdROf
  rfl


/-- Core of the pass-level idempotence: once the root sidecar has been
read-or-created, a second full pass over the state the first pass left
behind changes nothing and writes nothing. -/
theorem generateFeeds_fix_core (env : Env) (sup1 sup2 : Nat → Str) (st : RootState)
    (now1 now2 : Int) (k1 k2 : Nat) (m : RootMeta) (rootDisk : Option RootSidecar)
    (wroteR : Bool)
    (hwf : ∀ p ∈ st.folders, imageCount p.2.files ≤ 1 ∧ p.2.files.Nodup ∧ p.2.items.Nodup)
    (h1 : readCreateJsonRoot st.rootMeta (dfltRootOf env) = Except.ok (m, rootDisk, wroteR)) :
    (generateFeeds env sup2 (generateFeeds env sup1 st now1 k1).state now2 k2).state =
      (generateFeeds env sup1 st now1 k1).state ∧
    (generateFeeds env sup2 (generateFeeds env sup1 st now1 k1).state now2 k2).writes = [] := by
  have hrd : rootDisk = some (.ok m) := readCreateJsonRoot_disk _ _ _ _ _ h1
  have hpf := processFolders_fix env sup1 sup2 (mdROf m) now1 now2 st.folders k1 k2 hwf
  have h1' : readCreateJsonRoot rootDisk (dfltRootOf env) =
      Except.ok (m, some (.ok m), false) := by
    rw [hrd]
    unfold readCreateJsonRoot
    dsimp only
    rw [writeJsonRoot_self]
  cases hout : (processFolders env sup1 (mdROf m) now1 st.folders k1).2.2.2 with
  | error e =>
    cases e
    rw [generateFeeds_char_errFolder env sup1 st now1 k1 m rootDisk wroteR h1 hout]
    dsimp only
    have hout2 : (processFolders env sup2 (mdROf m) now2
        (processFolders env sup1 (mdROf m) now1 st.folders k1).1 k2).2.2.2 =
        Except.error () := by
      rw [hpf.2.2, hout]
    rw [generateFeeds_char_errFolder env sup2
      { st with
          rootMeta := rootDisk,
          folders := (processFolders env sup1 (mdROf m) now1 st.folders k1).1 }
      now2 k2 m (some (.ok m)) false h1' hout2]
    dsimp only
    constructor
    · apply rootStateExt
      · rw [hrd]
      · exact hpf.1
      · rfl
    · rw [hpf.2.1]
      rfl
  | ok urls =>
    rw [generateFeeds_char_ok env sup1 st now1 k1 m rootDisk wroteR urls h1 hout]
    dsimp only
    have hout2 : (processFolders env sup2 (mdROf m) now2
        (processFolders env sup1 (mdROf m) now1 st.folders k1).1 k2).2.2.2 =
        Except.ok urls := by
      rw [hpf.2.2, hout]
    rw [generateFeeds_char_ok env sup2
      { st with
          rootMeta := rootDisk,
          folders := (processFolders env sup1 (mdROf m) now1 st.folders k1).1,
          feedUrls := (writeFileIfChangedRun st.feedUrls (buildFeedUrlsContent urls)).1 }
      now2 k2 m (some (.ok m)) false urls h1' hout2]
    dsimp only
    have hwu := wfc_twice_same st.feedUrls (buildFeedUrlsContent urls)
    constructor
    · apply rootStateExt
      · rw [hrd]
      · exact hpf.1
      · rw [hwu]
    · rw [hpf.2.1, hwu]
      rfl

/-- Pass-level idempotence of `generateFeeds` on well-formed states: each
folder has at most one cover-image candidate and duplicate-free listings. -/
theorem generateFeeds_fix (env : Env) (sup1 sup2 : Nat → Str) (st : RootState)
    (now1 now2 : Int) (k1 k2 : Nat)
    (hwf : ∀ p ∈ st.folders, imageCount p.2.files ≤ 1 ∧ p.2.files.Nodup ∧ p.2.items.Nodup) :
    (generateFeeds env sup2 (generateFeeds env sup1 st now1 k1).state now2 k2).state =
      (generateFeeds env sup1 st now1 k1).state ∧
    (generateFeeds env sup2 (generateFeeds env sup1 st now1 k1).state now2 k2).writes = [] := by
  cases hrm : st.rootMeta with
  | none =>
    refine generateFeeds_fix_core env sup1 sup2 st now1 now2 k1 k2 (dfltRootOf env)
      (some (.ok (dfltRootOf env))) true hwf ?_
    rw [hrm]
    unfold readCreateJsonRoot
    rfl
  | some rs =>
    cases rs with
    | corrupt =>
      rw [generateFeeds_char_errRoot env sup1 st now1 k1 hrm]
      dsimp only
      rw [generateFeeds_char_errRoot env sup2 st now2 k2 hrm]
      exact ⟨rfl, rfl⟩
    | ok m0 =>
      refine generateFeeds_fix_core env sup1 sup2 st now1 now2 k1 k2 m0
        (some (.ok m0)) false hwf ?_
      rw [hrm]
      unfold readCreateJsonRoot
      dsimp only
      rw [writeJsonRoot_self]


/-- C1 counterexample: the claim fails for an arbitrary root state.  On a
folder holding two cover-image candidates (`a.jpg`, `b.png`), the first pass
renames `a.jpg` to `cover.jpg`; the second pass, seeing `b.png` sorted ahead
of `cover.jpg`, renames `b.png` to `cover.png` and rewrites `feed.xml` with
the new cover URL: the second run performs writes and changes the state. -/
theorem C1_counterexample :
    exRunImg2.writes ≠ [] ∧ exRunImg2.state ≠ exRunImg1.state := by decide

/-- C1 (amended): a second full generation pass with no filesystem changes
in between performs no writes and leaves the whole state byte-identical,
provided every folder has at most one cover-image candidate and
duplicate-free directory listings (with two or more images the cover rename
churns on every pass); the clock and uuid stream may differ freely between
the runs. -/
theorem C1_amended_theorem (env : Env) (sup1 sup2 : Nat → Str) (st : RootState)
    (now1 now2 : Int) (k1 k2 : Nat)
    (hwf : ∀ p ∈ st.folders, imageCount p.2.files ≤ 1 ∧ p.2.files.Nodup ∧ p.2.items.Nodup) :
    (generateFeeds env sup2 (generateFeeds env sup1 st now1 k1).state now2 k2).state =
      (generateFeeds env sup1 st now1 k1).state ∧
    (generateFeeds env sup2 (generateFeeds env sup1 st now1 k1).state now2 k2).writes = [] :=
  generateFeeds_fix env sup1 sup2 st now1 now2 k1 k2 hwf

/-- C1 amended witness: the three-folder example state (no folder has more
than one image, all listings duplicate-free); the second pass at a later
clock writes nothing and fixes the state. -/
theorem C1_amended_witness :
    (∀ p ∈ exStPrio.folders,
      imageCount p.2.files ≤ 1 ∧ p.2.files.Nodup ∧ p.2.items.Nodup) ∧
    ((generateFeeds exEnv exSup (generateFeeds exEnv exSup exStPrio 1700000000000 0).state
        1700000100000 0).state =
      (generateFeeds exEnv exSup exStPrio 1700000000000 0).state ∧
     (generateFeeds exEnv exSup (generateFeeds exEnv exSup exStPrio 1700000000000 0).state
        1700000100000 0).writes = []) :=
  ⟨by decide,
   C1_amended_theorem exEnv exSup exSup exStPrio 1700000000000 1700000100000 0 0 (by decide)⟩

end PodcastRss
